import Mathlib

/-!
# firebase-listener: subscription lifecycle and change normalisation

A shallow embedding of `src/main.js`.  JavaScript values are an inductive
type, the mutable `FirebaseListener` object is a record threaded through every
operation, and an exception is the `Option JSError` returned next to the state
that the operation had reached when it was raised.
-/

namespace Firebase

/-! ## JavaScript values -/

mutual
/-- Values returned by `snapshot.val()` and kept in `state.value`.  An array is
its list of index-keyed properties. -/
inductive JSValue where
  | undefined : JSValue
  | null : JSValue
  | bool (b : Bool) : JSValue
  | num (n : Int) : JSValue
  | str (s : String) : JSValue
  | obj (fields : Fields) : JSValue
  | arr (items : Fields) : JSValue
  deriving DecidableEq
/-- Own enumerable properties of an object, in enumeration order. -/
inductive Fields where
  | nil : Fields
  | cons (key : String) (value : JSValue) (rest : Fields) : Fields
  deriving DecidableEq
end

/-- JavaScript truthiness (`!x` is its negation). -/
def JSValue.truthy : JSValue → Bool
  | .undefined => false
  | .null => false
  | .bool b => b
  | .num n => n != 0
  | .str s => s != ""
  | .obj _ => true
  | .arr _ => true

/-- The test `typeof x === 'object'`, which `null` passes. -/
def JSValue.typeofObject : JSValue → Bool
  | .null => true
  | .obj _ => true
  | .arr _ => true
  | _ => false

/-- The test `Array.isArray(x)`. -/
def JSValue.isArray : JSValue → Bool
  | .arr _ => true
  | _ => false

/-- The test `x === null`. -/
def JSValue.isNull : JSValue → Bool
  | .null => true
  | _ => false

/-- The test `x === undefined`. -/
def JSValue.isUndefined : JSValue → Bool
  | .undefined => true
  | _ => false

/-- Strict equality of two primitives; `false` as soon as one side is an object
or an array (those are compared by reference, see `Upd`). -/
def JSValue.primEq : JSValue → JSValue → Bool
  | .undefined, .undefined => true
  | .null, .null => true
  | .bool a, .bool b => a == b
  | .num a, .num b => a == b
  | .str a, .str b => a == b
  | _, _ => false

/-- The property read `o[k]` guarded by `o.hasOwnProperty(k)`. -/
def Fields.get? : Fields → String → Option JSValue
  | .nil, _ => none
  | .cons k v rest, key => if k = key then some v else rest.get? key

/-- The test `o.hasOwnProperty(k)`. -/
def Fields.has (fs : Fields) (key : String) : Bool := (fs.get? key).isSome

/-- The assignment `o[k] = v` on a mutable copy: an existing property keeps its
place, a new one goes last. -/
def Fields.assign : Fields → String → JSValue → Fields
  | .nil, key, v => .cons key v .nil
  | .cons k w rest, key, v =>
      if k = key then .cons k v rest else .cons k w (rest.assign key v)

/-- The statement `delete o[k]` on a mutable copy. -/
def Fields.erase : Fields → String → Fields
  | .nil, _ => .nil
  | .cons k w rest, key =>
      if k = key then rest.erase key else .cons k w (rest.erase key)

/-! ## seamless-immutable

The cache holds immutable snapshots built by the package `seamless-immutable`,
which `main.js` imports.  The functions below follow the static API of that
package (`replace`, `set`, `without`, all resting on `merge`).  Every update
function returns either its receiver (the same reference) or a newly built
object, and `onSnapshot` tells the two apart with `!==`.  A raw value comes
from `snapshot.val()`, so it is never a reference into the cache: inside the
library it is identical to a cached value only when both are the same
primitive.  Property names are taken to differ from the built-in ones, and a
receiver that is neither an object nor an array is reported as a `TypeError`
(the cache never holds one, see `reduce`). -/

/-- Outcome of a library update applied to a receiver: `same` when the library
returned the receiver itself, `fresh v` when it returned a new object `v`. -/
inductive Upd where
  | same : Upd
  | fresh (v : JSValue) : Upd
  deriving DecidableEq

/-- Errors that can be raised while the listener runs. -/
inductive JSError where
  | typeError (what : String) : JSError
  | cancelledListen : JSError
  | remoteError (op : String) (event : String) : JSError
  | publishError : JSError
  deriving DecidableEq

/-- The loop of `clearDroppedKeys(this, other)`, run by `merge` in mode
`replace`: every key of the receiver that `other` lacks is deleted from the
copy.  The third argument is the part of the receiver still to be visited. -/
def clearDroppedKeys (cur other : Fields) : Fields → Option Fields → Option Fields
  | .nil, result => result
  | .cons key _ rest, result =>
      if other.has key then clearDroppedKeys cur other rest result
      else clearDroppedKeys cur other rest (some ((result.getD cur).erase key))

mutual
/-- The body of `addToResult` inside `merge` with `deep: true`: the value to store
under a key, given the receiver's property `cv` (`none` when it has no such own
property) and the incoming raw value; `none` when the property is left as it
is.  Two plain objects (`isMergableObject`, which excludes arrays) are merged
recursively in mode `replace`; any other value replaces the property unless
both sides are the same primitive (`isEqual`). -/
def mergeEntry (cv : Option JSValue) : JSValue → Option JSValue
  | .obj other =>
      match cv with
      | some (.obj cur) =>
          match clearDroppedKeys cur other cur (mergeAssign cur other none) with
          | some r => some (.obj r)
          | none => none
      | _ => some (.obj other)
  | v =>
      match cv with
      | some c => if c.primEq v then none else some v
      | none => some v
/-- The loop `for (key in other) addToResult(this, other, key)` of `merge`:
`result` is `none` while no copy of the receiver has been made. -/
def mergeAssign (cur : Fields) : Fields → Option Fields → Option Fields
  | .nil, result => result
  | .cons key value rest, result =>
      match mergeEntry (cur.get? key) value with
      | some nv => mergeAssign cur rest (some ((result.getD cur).assign key nv))
      | none => mergeAssign cur rest result
end

/-- The call `Immutable.merge(cur, other, {deep: true, mode: 'replace'})` on two
plain objects: `none` when the receiver itself is returned. -/
def mergeReplace (cur other : Fields) : Option Fields :=
  clearDroppedKeys cur other cur (mergeAssign cur other none)

/-- One patch of `merge` called with an array: `addToResult(result || this,
patch, key)` for every key of the patch; no key is dropped in this mode. -/
def mergePatch (cur : Fields) : Fields → Option Fields → Option Fields
  | .nil, result => result
  | .cons key value rest, result =>
      match mergeEntry ((result.getD cur).get? key) value with
      | some nv => mergePatch cur rest (some ((result.getD cur).assign key nv))
      | none => mergePatch cur rest result

/-- Characters of a string as index-keyed properties, from index `i` on. -/
def charFields : List Char → Nat → Fields
  | [], _ => .nil
  | c :: cs, i => .cons (toString i) (.str (String.singleton c)) (charFields cs (i + 1))

/-- What `for (key in x)` enumerates on a value. -/
def JSValue.ownFields : JSValue → Fields
  | .obj fs => fs
  | .arr fs => fs
  | .str s => charFields s.toList 0
  | _ => .nil

/-- The loop of `merge` over the elements of an array argument. -/
def mergePatches (cur : Fields) : Fields → Option Fields → Option Fields
  | .nil, result => result
  | .cons _ patch rest, result => mergePatches cur rest (mergePatch cur patch.ownFields result)

/-- The call `Immutable.replace(cur, value, {deep: true})`.  The library rejects
a `value` that is not an object; the receiver has to be an object or an array
(a new object built from an array receiver is a plain object). -/
def Immutable.replace (cur value : JSValue) : Except JSError Upd :=
  match value with
  | .obj other =>
      match cur with
      | .obj fs | .arr fs =>
          match mergeReplace fs other with
          | some r => .ok (.fresh (.obj r))
          | none => .ok .same
      | _ => .error (.typeError "replace: receiver is not an object")
  | .arr patches =>
      match cur with
      | .obj fs | .arr fs =>
          match mergePatches fs patches none with
          | some r => .ok (.fresh (.obj r))
          | none => .ok .same
      | _ => .error (.typeError "replace: receiver is not an object")
  | _ => .error (.typeError "Immutable#replace can only be invoked with objects or arrays")

/-- The call `Immutable.set(cur, key, value, {deep: true})`: `objectSet` on an
object, `arraySet` on an array. -/
def Immutable.setDeep (cur : JSValue) (key : String) (value : JSValue) : Except JSError Upd :=
  match cur with
  | .obj fs =>
      match mergeEntry (fs.get? key) value with
      | some nv => .ok (.fresh (.obj (fs.assign key nv)))
      | none => .ok .same
  | .arr fs =>
      match mergeEntry (fs.get? key) value with
      | some nv => .ok (.fresh (.arr (fs.assign key nv)))
      | none => .ok .same
  | _ => .error (.typeError "set: receiver is not an object")

/-- The value stored by `Immutable.set(cur, key, value)` without `deep`: the
property is left alone only when it already holds the same primitive. -/
def setEntry (cv : Option JSValue) (value : JSValue) : Option JSValue :=
  match cv with
  | some c => if c.primEq value then none else some value
  | none => some value

/-- The call `Immutable.set(cur, key, value)`. -/
def Immutable.set (cur : JSValue) (key : String) (value : JSValue) : Except JSError Upd :=
  match cur with
  | .obj fs =>
      match setEntry (fs.get? key) value with
      | some nv => .ok (.fresh (.obj (fs.assign key nv)))
      | none => .ok .same
  | .arr fs =>
      match setEntry (fs.get? key) value with
      | some nv => .ok (.fresh (.arr (fs.assign key nv)))
      | none => .ok .same
  | _ => .error (.typeError "set: receiver is not an object")

/-- The call `Immutable.without(cur, key)`: always a new object holding every
property but `key`. -/
def Immutable.without (cur : JSValue) (key : String) : Except JSError Upd :=
  match cur with
  | .obj fs | .arr fs => .ok (.fresh (.obj (fs.erase key)))
  | _ => .error (.typeError "without: receiver is not an object")

/-- The call `Immutable.asMutable(value, {deep: true})`.  The library starts with
`Object.getPrototypeOf(value)`, which raises a `TypeError` on `undefined` and on
`null`.  For an object or an array the result is a mutable copy carrying the
same data; for another primitive it is an object holding the enumerable
properties of the primitive. -/
def Immutable.asMutable (value : JSValue) : Except JSError JSValue :=
  match value with
  | .undefined | .null => .error (.typeError "Cannot convert undefined or null to object")
  | .obj fs => .ok (.obj fs)
  | .arr fs => .ok (.arr fs)
  | v => .ok (.obj v.ownFields)

/-! ## The listener object and its collaborators -/

/-- A snapshot handed to a callback by the remote source: `snapshot.key` and
`snapshot.val()`. -/
structure Snapshot where
  key : String
  val : JSValue
  deriving DecidableEq

/-- The third argument of `observer.publish`. -/
inductive Schema where
  | snapshot (method event key : String) (value : JSValue) : Schema
  | cancelledEvents (events : List String) : Schema
  | empty : Schema
  deriving DecidableEq

/-- One call `observer.publish(change_event, value, schema)`. -/
structure PublishCall where
  change_event : Option String
  value : JSValue
  schema : Schema
  deriving DecidableEq

/-- The `PromiseQueue` held in `this.observer`, as far as the listener uses it:
its `isCancelled` property and the calls made to `publish` and `cancel`. -/
structure PromiseQueue where
  isCancelled : Bool
  publishCalls : List PublishCall
  cancelCalls : Nat
  deriving DecidableEq

/-- The function a subscription invokes when the remote source fires it: the
closure registered by `listenToInitialEvents`, with the elements of the
collection `events` it closes over, or the closure `s => this[$onEvent](method,
event, s)` registered by `setupListenerOnEvent`. -/
inductive Callback where
  | initializer (events : List String) : Callback
  | onEvent (method event : String) : Callback
  deriving DecidableEq

/-- A subscription registered at the remote source. -/
structure RemoteSub where
  id : Nat
  method : String
  event : String
  callback : Callback
  deriving DecidableEq

/-- A call made on `this.ref`. -/
inductive RemoteCall where
  | subscribe (method event : String) (id : Nat) : RemoteCall
  | off (event : String) (id : Option Nat) : RemoteCall
  deriving DecidableEq

/-- The remote reference `this.ref`: its `toString()`, the subscriptions it
holds and the calls it has received. -/
structure Ref where
  url : String
  nextId : Nat
  active : List RemoteSub
  calls : List RemoteCall
  deriving DecidableEq

/-- Behaviour of the external collaborators that the listener cannot control:
which calls on the queue and on the remote reference raise, and whether the
queue's `cancel()` sets its `isCancelled` property. -/
structure Env where
  publishRaises : Option String → Bool
  subscribeRaises : String → String → Nat → Bool
  offRaises : String → Option Nat → Bool
  queueCancelSetsFlag : Bool

/-- The value of `state.events` or of the argument of `listen` and `off`: the
array the constructor starts with, or a `Set`. -/
inductive Events where
  | array (items : List String) : Events
  | set (items : List String) : Events
  deriving DecidableEq

/-- The configuration after `buildConfig`, restricted to the options that drive
the listener (logging, promise and queue options are left out). -/
structure Config where
  rehydrate : Bool
  notifyOn : List String
  onError : Option (JSError → String → JSValue)

/-- The record `this.state` (the `promises` slots are modelled with the queue). -/
structure State where
  rehydrated : Bool
  initializer : Option Nat
  listeners : List (String × Nat)
  events : Events
  value : JSValue
  deriving DecidableEq

/-- An instance of the class `FirebaseListener`. -/
structure FirebaseListener where
  ref : Ref
  url : String
  config : Config
  state : State
  isCancelled : Bool
  observer : PromiseQueue

/-- The options a caller may pass; an option left out is `none`.  `notifyOn`
may be a single string. -/
structure UserConfig where
  rehydrate : Option Bool
  notifyOn : Option (String ⊕ List String)
  onError : Option (JSError → String → JSValue)

/-- The function `buildConfig` followed by the constructor's normalisation of a
string `notifyOn` into a one-element array. -/
def buildConfig (config : UserConfig) : Config :=
  { rehydrate := config.rehydrate.getD true
    notifyOn :=
      match config.notifyOn with
      | none => ["changed", "off", "cancelled"]
      | some (.inl s) => [s]
      | some (.inr xs) => xs
    onError := config.onError }

/-- The bound hook `this[$onError]`: the configured function, or `() => {}`. -/
def FirebaseListener.onError (l : FirebaseListener) (e : JSError) (ctx : String) : JSValue :=
  match l.config.onError with
  | some hook => hook e ctx
  | none => .undefined

/-- The test `shouldThrow !== false`. -/
def shouldThrow (r : JSValue) : Bool :=
  match r with
  | .bool false => false
  | _ => true

/-- The shared shape of every `catch` block: report to the hook, raise again
unless it returned `false`. -/
def FirebaseListener.rethrow (l : FirebaseListener) (e : JSError) (ctx : String) : Option JSError :=
  if shouldThrow (l.onError e ctx) then some e else none

/-- The call `observer.publish(change_event, value, schema)`. -/
def PromiseQueue.publish (q : PromiseQueue) (c : PublishCall) : PromiseQueue :=
  { q with publishCalls := q.publishCalls ++ [c] }

/-- The call `observer.cancel()`. -/
def PromiseQueue.cancel (env : Env) (q : PromiseQueue) : PromiseQueue :=
  { q with cancelCalls := q.cancelCalls + 1
           isCancelled := q.isCancelled || env.queueCancelSetsFlag }

/-- The filter of `onMaybeUpdateClient`: `notifyOn.includes(change_event) ||
(notifyOn.includes('changed') && value_changed) || notifyOn.includes('all')`. -/
def shouldPublish (notifyOn : List String) (change_event : Option String)
    (value_changed : Bool) : Bool :=
  (match change_event with
    | some c => notifyOn.contains c
    | none => false)
  || (notifyOn.contains "changed" && value_changed)
  || notifyOn.contains "all"

/-- The function `onMaybeUpdateClient`.  Inside the `try`, the argument
`Immutable.asMutable(this.state.value, {deep: true})` is evaluated first; when
it raises, `publish` is not called.  Then `publish` is called with the copy. -/
def onMaybeUpdateClient (env : Env) (l : FirebaseListener) (schema : Schema)
    (change_event : Option String) (value_changed : Bool) : FirebaseListener × Option JSError :=
  if shouldPublish l.config.notifyOn change_event value_changed then
    match Immutable.asMutable l.state.value with
    | .error e => (l, l.rethrow e "update-client")
    | .ok copy =>
      let l1 := { l with observer := l.observer.publish ⟨change_event, copy, schema⟩ }
      if env.publishRaises change_event then
        (l1, l1.rethrow .publishError "update-client")
      else (l1, none)
  else (l, none)

/-- The locals of `onSnapshot` when it reaches `onMaybeUpdateClient`. -/
structure Reduction where
  current_value : JSValue
  new_value : JSValue
  change_event : Option String
  value_changed : Bool
  deriving DecidableEq

/-- The comparison `current_value !== new_value` after a library call: the two
differ exactly when the library built a new object. -/
def Upd.reduction (u : Upd) (current_value : JSValue) (change_event : String) : Reduction :=
  match u with
  | .same => ⟨current_value, current_value, some change_event, false⟩
  | .fresh v => ⟨current_value, v, some change_event, true⟩

/-- Lines 84 to 138 of `onSnapshot`: the new cache, the change kind and the
`value_changed` flag computed from the cache and the notification.  An error is
a `TypeError` raised by the library, before the cache is written. -/
def reduce (cached : JSValue) (event key : String) (value : JSValue) : Except JSError Reduction :=
  let current_value :=
    if !cached.truthy && value.typeofObject then
      (if value.isArray then JSValue.arr .nil else JSValue.obj .nil)
    else cached
  if value.isNull then
    .ok ⟨current_value, .undefined, some "removed", !current_value.isUndefined⟩
  else if event = "rehydrate" then
    (Immutable.replace current_value value).map (·.reduction current_value "rehydrated")
  else if event = "value" then
    (Immutable.replace current_value value).map (·.reduction current_value "changed")
  else if event = "child_added" then
    (Immutable.setDeep current_value key value).map (·.reduction current_value "added")
  else if event = "child_removed" then
    (Immutable.without current_value key).map (·.reduction current_value "removed")
  else if event = "child_changed" then
    (Immutable.set current_value key value).map (·.reduction current_value "changed")
  else
    .ok ⟨current_value, .undefined, none, !current_value.isUndefined⟩

/-- The function `onSnapshot` (bound as `this[$onEvent]`): reduce, write the
cache, hand over to `onMaybeUpdateClient` (the call to the logger is left
out). -/
def onSnapshot (env : Env) (l : FirebaseListener) (method event : String) (snapshot : Snapshot) :
    FirebaseListener × Option JSError :=
  match reduce l.state.value event snapshot.key snapshot.val with
  | .error e => (l, some e)
  | .ok r =>
      onMaybeUpdateClient env { l with state := { l.state with value := r.new_value } }
        (.snapshot method event snapshot.key snapshot.val) r.change_event r.value_changed

/-! ## Remote reference and event collections -/

/-- The calls `ref.on(event, callback, this[$onCancel])` and `ref.once(...)`.
A call that raises registers nothing.  The handle returned is new. -/
def Ref.subscribe (env : Env) (r : Ref) (method event : String) (callback : Callback) :
    Except JSError (Ref × Nat) :=
  if env.subscribeRaises method event r.nextId then
    .error (.remoteError method event)
  else
    .ok ({ r with nextId := r.nextId + 1
                  active := r.active ++ [⟨r.nextId, method, event, callback⟩]
                  calls := r.calls ++ [.subscribe method event r.nextId] }, r.nextId)

/-- The call `ref.off(event, id)`: the subscription with that handle is
dropped; without a handle every subscription for the event is.  A call that
raises detaches nothing. -/
def Ref.off (env : Env) (r : Ref) (event : String) (id : Option Nat) : Except JSError Ref :=
  if env.offRaises event id then
    .error (.remoteError "off" event)
  else
    .ok { r with
          active := r.active.filter (fun sub =>
            !(sub.event == event && (match id with
                                      | some i => sub.id == i
                                      | none => true)))
          calls := r.calls ++ [.off event id] }

/-- Elements of the collection, in iteration order. -/
def Events.items : Events → List String
  | .array xs => xs
  | .set xs => xs

/-- The method call `events.has(x)`; an array has no such method. -/
def Events.has (e : Events) (x : String) : Except JSError Bool :=
  match e with
  | .set xs => .ok (xs.contains x)
  | .array _ => .error (.typeError "events.has is not a function")

/-- The method call `events.delete(x)`. -/
def Events.delete (e : Events) (x : String) : Except JSError Events :=
  match e with
  | .set xs => .ok (.set (xs.filter (fun y => y != x)))
  | .array _ => .error (.typeError "events.delete is not a function")

/-- The method call `events.add(x)`: a new element goes last. -/
def Events.add (e : Events) (x : String) : Except JSError Events :=
  match e with
  | .set xs => .ok (.set (if xs.contains x then xs else xs ++ [x]))
  | .array _ => .error (.typeError "events.add is not a function")

/-- The read `this.state.listeners[event]`. -/
def lookupListener (listeners : List (String × Nat)) (event : String) : Option Nat :=
  (listeners.find? (fun p => p.1 == event)).map (·.2)

/-- The statement `delete this.state.listeners[event]`. -/
def deleteListener (listeners : List (String × Nat)) (event : String) : List (String × Nat) :=
  listeners.filter (fun p => p.1 != event)

/-- The assignment `this.state.listeners[event] = id`. -/
def setListener (listeners : List (String × Nat)) (event : String) (id : Nat) :
    List (String × Nat) :=
  deleteListener listeners event ++ [(event, id)]

/-! ## Attaching listeners -/

/-- The function `setupListenerOnEvent`. -/
def setupListenerOnEvent (env : Env) (l : FirebaseListener) (_event : String) :
    FirebaseListener × Option JSError :=
  let method := if _event = "once" then "once" else "on"
  let event := if _event = "once" then "value" else _event
  match (if _event = "once" then l.state.events.delete _event else .ok l.state.events) with
  | .error e => (l, some e)
  | .ok events1 =>
    let l1 := { l with state := { l.state with events := events1 } }
    match lookupListener l1.state.listeners event with
    | some _ => (l1, none)
    | none =>
      match l1.ref.subscribe env method event (.onEvent method event) with
      | .error e => (l1, some e)
      | .ok (ref1, id) =>
        let l2 := { l1 with ref := ref1 }
        if method != "once" then
          let l3 := { l2 with state := { l2.state with
                        listeners := setListener l2.state.listeners event id } }
          match l3.state.events.has event with
          | .error e => (l3, some e)
          | .ok true => (l3, none)
          | .ok false =>
            match l3.state.events.add event with
            | .error e => (l3, some e)
            | .ok events2 => ({ l3 with state := { l3.state with events := events2 } }, none)
        else (l2, none)

/-- The loop `events.forEach(_event => setupListenerOnEvent.call(this, _event))`;
an exception leaves the loop. -/
def setupAll (env : Env) : FirebaseListener → List String → FirebaseListener × Option JSError
  | l, [] => (l, none)
  | l, e :: rest =>
      match setupListenerOnEvent env l e with
      | (l1, some err) => (l1, some err)
      | (l1, none) => setupAll env l1 rest

/-- The function `listenToInitialEvents`, up to the registration of the
initializer; what the registered callback does is `initializerCallback`. -/
def listenToInitialEvents (env : Env) (l : FirebaseListener) (events : List String) :
    FirebaseListener × Option JSError :=
  match l.ref.subscribe env "on" "value" (.initializer events) with
  | .error e => (l, some e)
  | .ok (ref1, id) =>
      ({ l with ref := ref1, state := { l.state with initializer := some id } }, none)

/-- The function `listenToEvents`. -/
def listenToEvents (env : Env) (l : FirebaseListener) (events : List String) :
    FirebaseListener × Option JSError :=
  let awaitRehydration := l.config.rehydrate && !l.state.rehydrated
  if awaitRehydration then listenToInitialEvents env l events
  else setupAll env l events

/-- The callback that `listenToInitialEvents` registers, closed over the
collection `events` it was given. -/
def initializerCallback (env : Env) (l : FirebaseListener) (events : List String)
    (snapshot : Snapshot) : FirebaseListener × Option JSError :=
  if l.state.rehydrated then
    onSnapshot env l "on" "value" snapshot
  else
    match onSnapshot env l "on" "rehydrate" snapshot with
    | (l1, some e) => (l1, some e)
    | (l1, none) =>
      let l2 := { l1 with state := { l1.state with rehydrated := true } }
      let l3 :=
        if events.contains "value" then
          { l2 with state := { l2.state with
              listeners :=
                match l2.state.initializer with
                | some id => setListener l2.state.listeners "value" id
                | none => deleteListener l2.state.listeners "value" } }
        else l2
      match listenToEvents env l3 events with
      | (l4, some e) => (l4, some e)
      | (l4, none) =>
        if !events.contains "value" then
          match l4.ref.off env "value" l4.state.initializer with
          | .error e => (l4, some e)
          | .ok ref1 =>
              ({ l4 with ref := ref1, state := { l4.state with initializer := none } }, none)
        else
          ({ l4 with state := { l4.state with initializer := none } }, none)

/-- What the remote source does when the subscription with handle `id` fires:
it runs the registered callback, and a `once` subscription is dropped first.
A handle that is not registered fires nothing. -/
def fire (env : Env) (l : FirebaseListener) (id : Nat) (snapshot : Snapshot) :
    FirebaseListener × Option JSError :=
  match l.ref.active.find? (fun sub => sub.id == id) with
  | none => (l, none)
  | some sub =>
    let l1 :=
      if sub.method = "once" then
        { l with ref := { l.ref with active := l.ref.active.filter (fun s => s.id != id) } }
      else l
    match sub.callback with
    | .initializer events => initializerCallback env l1 events snapshot
    | .onEvent method event => onSnapshot env l1 method event snapshot

/-! ## Detaching, cancelling and the registry -/

/-- The body of the `forEach` in `cancelEvents`, threaded over the events: the
listener, the `cancelledEvents` collected so far, and the exception that left
the loop, if any. -/
def cancelLoop (env : Env) :
    FirebaseListener → List String → List String → FirebaseListener × List String × Option JSError
  | l, [], cancelledEvents => (l, cancelledEvents, none)
  | l, event :: rest, cancelledEvents =>
      match lookupListener l.state.listeners event with
      | none => cancelLoop env l rest cancelledEvents
      | some listenerID =>
        match l.ref.off env event (some listenerID) with
        | .error e => (l, cancelledEvents, some e)
        | .ok ref1 =>
          let l1 := { l with ref := ref1, state := { l.state with
                        listeners := deleteListener l.state.listeners event } }
          match l1.state.events.delete event with
          | .error e => (l1, cancelledEvents, some e)
          | .ok events1 =>
            cancelLoop env { l1 with state := { l1.state with events := events1 } } rest
              (cancelledEvents ++ [event])

/-- The function `cancelEvents`. -/
def cancelEvents (env : Env) (l : FirebaseListener) (events : Events) :
    FirebaseListener × Option JSError :=
  match cancelLoop env l events.items [] with
  | (l1, _, some e) => (l1, l1.rethrow e "cancel-event")
  | (l1, cancelledEvents, none) =>
    if cancelledEvents.length > 0 && !l1.observer.isCancelled then
      match onMaybeUpdateClient env l1 (.cancelledEvents cancelledEvents) (some "off") false with
      | (l2, some e) => (l2, l2.rethrow e "cancel-event")
      | (l2, none) => (l2, none)
    else (l1, none)

/-- The method `off`; `none` is a call without argument. -/
def off (env : Env) (l : FirebaseListener) (_events : Option Events) :
    FirebaseListener × Option JSError :=
  let events := match _events with
    | some e => e
    | none => l.state.events
  cancelEvents env l events

/-- The `try` block of `listen`.  The branch guarded by `! events instanceof Set`
is never taken, since `(! events) instanceof Set` is `false`; neither is the
early `return`, since `state.events` is never falsy. -/
def listenBody (env : Env) (l : FirebaseListener) (_events : Option Events) :
    FirebaseListener × Option JSError :=
  if l.isCancelled then
    (l, some .cancelledListen)
  else
    let events := match _events with
      | some e => e
      | none => l.state.events
    match events.has "once" with
    | .error e => (l, some e)
    | .ok hasOnce =>
      let events1 :=
        if hasOnce then Events.set (events.items.filter (fun y => y != "once") ++ ["once"])
        else events
      let l1 := { l with state := { l.state with events := events1 } }
      listenToEvents env l1 events1.items

/-- The method `listen`; `none` is a call without argument. -/
def listen (env : Env) (l : FirebaseListener) (_events : Option Events) :
    FirebaseListener × Option JSError :=
  match listenBody env l _events with
  | (l1, some e) => (l1, l1.rethrow e "listen")
  | (l1, none) => (l1, none)

/-- Modelled from the spec: the module `utils/context`, which exports the map
`FirebaseListeners`, is not among the sources; the spec describes it as the
process-wide mapping from path identity to Subscription.  It is a `Map` from
`ref.toString()` to the identity of the registered instance. -/
abbrev Registry := List (String × Nat)

/-- The call `FirebaseListeners.has(url)`. -/
def Registry.has (r : Registry) (url : String) : Bool := r.any (fun p => p.1 == url)

/-- The call `FirebaseListeners.get(url)`. -/
def Registry.get (r : Registry) (url : String) : Option Nat :=
  (r.find? (fun p => p.1 == url)).map (·.2)

/-- The call `FirebaseListeners.set(url, listener)`. -/
def Registry.set (r : Registry) (url : String) (id : Nat) : Registry :=
  if r.has url then r.map (fun p => if p.1 == url then (url, id) else p)
  else r ++ [(url, id)]

/-- The call `FirebaseListeners.delete(url)`. -/
def Registry.delete (r : Registry) (url : String) : Registry :=
  r.filter (fun p => p.1 != url)

/-- The result `[...FirebaseListeners.keys()]` of `getActiveFirebasePaths`. -/
def getActiveFirebasePaths (r : Registry) : List String := r.map (·.1)

/-- The `try` block of `cancel`. -/
def cancelBody (env : Env) (registry : Registry) (l : FirebaseListener) :
    Registry × FirebaseListener × Option JSError :=
  let l1 := { l with isCancelled := true }
  match off env l1 none with
  | (l2, some e) => (registry, l2, some e)
  | (l2, none) =>
    let l3 := { l2 with observer := l2.observer.cancel env }
    let registry1 := registry.delete l3.url
    if !l3.observer.isCancelled then
      match onMaybeUpdateClient env l3 .empty (some "cancelled") false with
      | (l4, err) => (registry1, l4, err)
    else (registry1, l3, none)

/-- The method `cancel`, acting on the instance and on the registry (its return
value `this.observer.cancelled()` is not modelled). -/
def cancel (env : Env) (registry : Registry) (l : FirebaseListener) :
    Registry × FirebaseListener × Option JSError :=
  match cancelBody env registry l with
  | (registry1, l1, some e) => (registry1, l1, l1.rethrow e "cancel")
  | (registry1, l1, none) => (registry1, l1, none)

/-- The heap of `FirebaseListener` instances (an instance is identified by its
position) together with the registry. -/
structure World where
  objects : List FirebaseListener
  registry : Registry

/-- The fields the constructor of `FirebaseListener` writes (`host` and `name`,
which only serve logging, are left out). -/
def FirebaseListener.init (ref : Ref) (config : UserConfig) (url : String) : FirebaseListener :=
  { ref := ref
    url := url
    config := buildConfig config
    state :=
      { rehydrated := false
        initializer := none
        listeners := []
        events := .array []
        value := .undefined }
    isCancelled := false
    observer := { isCancelled := false, publishCalls := [], cancelCalls := 0 } }

/-- The constructor of `FirebaseListener`: a new instance in its initial state,
registered by `FirebaseListeners.set(url, this)`. -/
def construct (w : World) (ref : Ref) (config : UserConfig) (url : String) : World × Nat :=
  ({ objects := w.objects ++ [FirebaseListener.init ref config url]
     registry := w.registry.set url w.objects.length }, w.objects.length)

/-- The factory `createFirebaseListener`; `none` stands for the `undefined`
that `Map.get` returns for a missing key. -/
def createFirebaseListener (w : World) (ref : Ref) (config : UserConfig) : World × Option Nat :=
  let url := ref.url
  if w.registry.has url then
    (w, w.registry.get url)
  else
    let (w1, listener) := construct w ref config url
    (w1, some listener)

/-! ## The pull interface `next`

`resolveNext` works on the two slots `state.promises` and on the futures that
`observer.next()` hands out.  A future of the queue is identified by the rank
of the `observer.next()` call that produced it; when and with which change the
queue resolves a future is decided by the queue (`settle`).  The optional
`promiseFactory` is left out. -/

/-- The continuation `r => { if (firstListener) shiftQueue(); return resolve(r) }`
that `resolveNext` attaches to a future; `caller` identifies the promise that
`resolveNext` returned. -/
structure Waiter where
  future : Nat
  firstListener : Bool
  caller : Nat
  deriving DecidableEq

/-- The slots `state.promises.current` and `state.promises.next`, the futures
issued and resolved by the queue, the continuations waiting on them, and the
promises returned by `next` together with the changes they resolved with. -/
structure NextQueue where
  current : Option Nat
  next : Option Nat
  issued : Nat
  settled : List (Nat × PublishCall)
  waiters : List Waiter
  callers : Nat
  delivered : List (Nat × PublishCall)
  deriving DecidableEq

/-- The slots of a new instance: no future, no caller. -/
def NextQueue.init : NextQueue :=
  { current := none, next := none, issued := 0, settled := [], waiters := [], callers := 0,
    delivered := [] }

/-- The function `shiftQueue`. -/
def shiftQueue (q : NextQueue) : NextQueue :=
  { q with current := q.next, next := none }

/-- One run of the continuation attached by `resolveNext`. -/
def NextQueue.resume (q : NextQueue) (w : Waiter) (r : PublishCall) : NextQueue :=
  let q1 := if w.firstListener then shiftQueue q else q
  { q1 with delivered := q1.delivered ++ [(w.caller, r)] }

/-- The call `promise.then(...)` inside `resolveNext` and the promise returned
to the caller: on a future that is already resolved the continuation runs
without waiting for the queue. -/
def NextQueue.attach (q : NextQueue) (future : Nat) (firstListener : Bool) : NextQueue × Nat :=
  let w : Waiter := ⟨future, firstListener, q.callers⟩
  let q1 := { q with callers := q.callers + 1 }
  match q1.settled.find? (fun p => p.1 == future) with
  | some p => (q1.resume w p.2, w.caller)
  | none => ({ q1 with waiters := q1.waiters ++ [w] }, w.caller)

/-- The function `resolveNext` (the method `next(after)`): picks or requests the
future to wait on, attaches the continuation, returns the caller's promise. -/
def resolveNext (q : NextQueue) (after : Bool) : NextQueue × Nat :=
  match q.current with
  | none =>
      ({ q with current := some q.issued, issued := q.issued + 1 }).attach q.issued true
  | some current =>
      if !after then q.attach current false
      else
        match q.next with
        | some next => q.attach next false
        | none =>
            ({ q with next := some q.issued, issued := q.issued + 1 }).attach q.issued false

/-- The continuations of a resolved future, run in the order they were
attached. -/
def runWaiters : NextQueue → List Waiter → PublishCall → NextQueue
  | q, [], _ => q
  | q, w :: ws, r => runWaiters (q.resume w r) ws r

/-- The queue resolves one of its outstanding futures with the change `r`, and
the continuations waiting on it run. -/
def settle (q : NextQueue) (future : Nat) (r : PublishCall) : NextQueue :=
  if future < q.issued && !(q.settled.any (fun p => p.1 == future)) then
    runWaiters
      { q with settled := q.settled ++ [(future, r)]
               waiters := q.waiters.filter (fun w => w.future != future) }
      (q.waiters.filter (fun w => w.future == future)) r
  else q

/-! ## Sequences of operations -/

/-- One thing that happens to an instance: a call of `listen`, `off` or
`cancel`, or the remote source firing a subscription. -/
inductive Op where
  | listen (_events : Option Events) : Op
  | off (_events : Option Events) : Op
  | cancel : Op
  | fire (id : Nat) (snapshot : Snapshot) : Op

/-- The instance after one operation, whether it raised or not (the registry is
left aside: it has no influence on the instance). -/
def step (env : Env) (l : FirebaseListener) : Op → FirebaseListener
  | .listen _events => (listen env l _events).1
  | .off _events => (off env l _events).1
  | .cancel => (cancel env [] l).2.1
  | .fire id snapshot => (fire env l id snapshot).1

/-- The instance after a sequence of operations. -/
def run (env : Env) (l : FirebaseListener) (ops : List Op) : FirebaseListener :=
  ops.foldl (step env) l

/-- What attaching and detaching leave alone: configuration, queue, cache,
`rehydrated`, `isCancelled` and `url`. -/
def Keeps (a b : FirebaseListener) : Prop :=
  b.config = a.config ∧ b.observer = a.observer ∧ b.state.rehydrated = a.state.rehydrated
  ∧ b.state.value = a.state.value ∧ b.isCancelled = a.isCancelled ∧ b.url = a.url

/-- No per-kind listener is recorded and every subscription held by the remote
source is an initializer. -/
def OnlyInitializers (l : FirebaseListener) : Prop :=
  l.state.listeners = [] ∧ ∀ sub ∈ l.ref.active, ∃ events, sub.callback = .initializer events

/-- What every operation guarantees between the state before and the state
after: same configuration, `rehydrated` never reset, publish calls only
appended, and while a rehydrating instance is not rehydrated it keeps having
initializers only. -/
def Evolves (a b : FirebaseListener) : Prop :=
  b.config = a.config
  ∧ (a.state.rehydrated = true → b.state.rehydrated = true)
  ∧ (∃ extra, b.observer.publishCalls = a.observer.publishCalls ++ extra)
  ∧ (b.config.rehydrate = true → b.state.rehydrated = false →
      OnlyInitializers a → OnlyInitializers b)

/-- The calls `ref.on('value', ...)` and `ref.once('value', ...)` among the calls
made on the remote reference. -/
def valueSubscriptions (calls : List RemoteCall) : List RemoteCall :=
  calls.filter (fun c =>
    match c with
    | .subscribe _ event _ => event == "value"
    | .off _ _ => false)

/-- The bookkeeping that holds while per-kind listeners are attached after the
initializer with handle `n`: `state.events` is a `Set`, only a full-value
subscription can carry the handle `n`, and each kind other than `value` has
exactly the remote subscription recorded in `listeners`, or none. -/
def WellAttached (n : Nat) (l : FirebaseListener) : Prop :=
  (∃ ys, l.state.events = .set ys)
  ∧ n < l.ref.nextId
  ∧ (∀ sub ∈ l.ref.active, sub.id = n → sub.event = "value")
  ∧ (∀ k, k ≠ "value" →
      l.ref.active.filter (fun sub => sub.event == k)
        = (match lookupListener l.state.listeners k with
            | some id => [⟨id, "on", k, .onEvent "on" k⟩]
            | none => []))

/-- The collection `listen` works on when it is given `new Set(requested)`: a
`once` entry is moved to the end. -/
def onceLast (requested : List String) : Events :=
  if requested.contains "once" then
    Events.set (requested.filter (fun y => y != "once") ++ ["once"])
  else Events.set requested

/-- A new instance after one call `listen(new Set(requested))`. -/
def listening (env : Env) (ref : Ref) (config : UserConfig) (url : String)
    (requested : List String) : FirebaseListener :=
  (listen env (FirebaseListener.init ref config url) (some (.set requested))).1

/-- A new instance after one call `listen(new Set(requested))` and the first
firing of the initializer, whose handle is `ref.nextId`. -/
def afterFirstResponse (env : Env) (ref : Ref) (config : UserConfig) (url : String)
    (requested : List String) (snapshot : Snapshot) : FirebaseListener :=
  (fire env (listening env ref config url requested) ref.nextId snapshot).1

/-! ## Sample inputs -/

/-- An environment in which no call on the queue or on the remote reference
raises, and the queue's `cancel()` sets `isCancelled`. -/
def Env.quiet : Env :=
  { publishRaises := fun _ => false
    subscribeRaises := fun _ _ _ => false
    offRaises := fun _ _ => false
    queueCancelSetsFlag := true }

/-- An environment in which every `ref.off` raises. -/
def Env.offFails : Env := { Env.quiet with offRaises := fun _ _ => true }

/-- A reference to the path `/rooms/42`. -/
def roomRef : Ref := { url := "https://db.example/rooms/42", nextId := 0, active := [], calls := [] }

/-- A call without options. -/
def UserConfig.defaults : UserConfig := { rehydrate := none, notifyOn := none, onError := none }

/-- The listener `createFirebaseListener(roomRef)` builds with the default
configuration. -/
def roomListener : FirebaseListener := FirebaseListener.init roomRef UserConfig.defaults roomRef.url

/-- The object `{a: 1, b: 2}`. -/
def valueAB12 : JSValue := .obj (.cons "a" (.num 1) (.cons "b" (.num 2) .nil))

/-- The object `{a: 1, b: 3}`. -/
def valueAB13 : JSValue := .obj (.cons "a" (.num 1) (.cons "b" (.num 3) .nil))

/-- The object `{b: 3}`. -/
def valueB3 : JSValue := .obj (.cons "b" (.num 3) .nil)

/-- The array `[1]`. -/
def arrayOne : JSValue := .arr (.cons "0" (.num 1) .nil)

/-- The object `{a: [1]}`. -/
def valueWithArray : JSValue := .obj (.cons "a" arrayOne .nil)

/-- Successive deliveries to `onSnapshot`, each one a callback of its own: an
exception raised by one does not stop the next. -/
def dispatchAll (env : Env) : FirebaseListener → List (String × String × Snapshot) → FirebaseListener
  | l, [] => l
  | l, (method, event, snapshot) :: rest =>
      dispatchAll env (onSnapshot env l method event snapshot).1 rest

/-- A listener on `/rooms/42` with `notifyOn = ['changed', 'added', 'removed']`. -/
def scenarioListener : FirebaseListener :=
  FirebaseListener.init roomRef
    { rehydrate := some true, notifyOn := some (.inr ["changed", "added", "removed"]),
      onError := none } roomRef.url

/-- The notifications of the example: full value `{a: 1, b: 2}`, child `b`
changed to `3`, child `a` removed, whole path deleted. -/
def scenarioNotifications : List (String × String × Snapshot) :=
  [ ("on", "rehydrate", ⟨"42", valueAB12⟩),
    ("on", "child_changed", ⟨"b", .num 3⟩),
    ("on", "child_removed", ⟨"a", .num 1⟩),
    ("on", "value", ⟨"42", .null⟩) ]

/-- A listener whose cache is `{a: [1]}` and whose filter is `['changed']`. -/
def arrayChildListener : FirebaseListener :=
  let l := FirebaseListener.init roomRef
    { rehydrate := some true, notifyOn := some (.inl "changed"), onError := none } roomRef.url
  { l with state := { l.state with value := valueWithArray } }

/-- The world after `createFirebaseListener(roomRef, {rehydrate: false})` on an
empty registry. -/
def worldNoRehydrate : World :=
  (createFirebaseListener ⟨[], []⟩ roomRef
    { rehydrate := some false, notifyOn := none, onError := none }).1

/-- The instance created in `worldNoRehydrate` after `listen(new Set(['value']))`. -/
def valueListener : FirebaseListener :=
  (listen Env.quiet
    (FirebaseListener.init roomRef { rehydrate := some false, notifyOn := none, onError := none }
      roomRef.url)
    (some (.set ["value"]))).1

/-- The same instance with a hook that returns `false` for errors of `cancel`
only. -/
def valueListenerHooked : FirebaseListener :=
  { valueListener with config := { valueListener.config with
      onError := some (fun _ ctx => if ctx = "cancel" then .bool false else .undefined) } }

/-- The default instance after `listen(new Set(['child_added']))`: it waits for
the initializer's first response. -/
def pendingListener : FirebaseListener :=
  (listen Env.quiet roomListener (some (.set ["child_added"]))).1

/-- The instance `pendingListener` after `cancel()`. -/
def cancelledPending : FirebaseListener :=
  (cancel Env.quiet [(roomRef.url, 0)] pendingListener).2.1

/-- The shapes the cache can take: absent, an object or an array. -/
def JSValue.cacheShape : JSValue → Bool
  | .undefined => true
  | .obj _ => true
  | .arr _ => true
  | _ => false

mutual
/-- A value built from primitives and plain objects only (no array), each
object with pairwise distinct keys. -/
def JSValue.plain : JSValue → Bool
  | .arr _ => false
  | .obj fs => fs.plain
  | _ => true
/-- Property lists with distinct keys whose values are all plain. -/
def Fields.plain : Fields → Bool
  | .nil => true
  | .cons k v rest => v.plain && !rest.has k && rest.plain
end

/-- The instance created with `{rehydrate: false}` before any call. -/
def plainListener : FirebaseListener :=
  FirebaseListener.init roomRef { rehydrate := some false, notifyOn := none, onError := none }
    roomRef.url

/-- The instance `valueListener` after a second call
`listen(new Set(['child_added']))`. -/
def valueThenChild : FirebaseListener :=
  (listen Env.quiet valueListener (some (.set ["child_added"]))).1

/-- The instance created with `{rehydrate: false}` after
`listen(new Set(['value', 'child_added']))`. -/
def twoKindsListener : FirebaseListener :=
  (listen Env.quiet plainListener (some (.set ["value", "child_added"]))).1

/-- An environment in which `ref.off` raises for the kind `value` only. -/
def Env.offValueFails : Env := { Env.quiet with offRaises := fun event _ => event == "value" }

/-- The registry after `createFirebaseListener(roomRef)`, `cancel()` on that
instance, and a second `createFirebaseListener(roomRef)`: the path is
registered for the second instance. -/
def registryAfterRecreate : Registry :=
  (createFirebaseListener
    { objects := (createFirebaseListener ⟨[], []⟩ roomRef UserConfig.defaults).1.objects
      registry := (cancel Env.quiet
        (createFirebaseListener ⟨[], []⟩ roomRef UserConfig.defaults).1.registry
        pendingListener).1 }
    roomRef UserConfig.defaults).1.registry

/-- The instance `twoKindsListener` after the loop of `cancelEvents` has
handled the kind `child_added`. -/
def childDetached : FirebaseListener :=
  (cancelLoop Env.offValueFails twoKindsListener ["child_added"] []).1

/-- The published change `('changed', {a: 1, b: 2})`. -/
def changeA : PublishCall := ⟨some "changed", valueAB12, .empty⟩

/-- The published change `('changed', {a: 1, b: 3})`. -/
def changeB : PublishCall := ⟨some "changed", valueAB13, .empty⟩

/-- The slots after `next()`, `next(true)` and the resolution of the two
futures, the first with `changeA`, the second with `changeB`. -/
def promotedSettled : NextQueue :=
  settle (settle (resolveNext (resolveNext NextQueue.init false).1 true).1 0 changeA) 1 changeB

/-- A listener whose filter is `'all'` and whose cache is `{a: 1}`. -/
def allListener : FirebaseListener :=
  let l := FirebaseListener.init roomRef
    { rehydrate := some false, notifyOn := some (.inl "all"), onError := none } roomRef.url
  { l with state := { l.state with value := .obj (.cons "a" (.num 1) .nil) } }

/-- The error raised by `Immutable.asMutable` on an absent cache. -/
def absentCacheError : JSError := .typeError "Cannot convert undefined or null to object"

/-- The instance `valueListener` after its `value` listener has delivered
`{a: 1, b: 2}`. -/
def populatedValueListener : FirebaseListener :=
  (fire Env.quiet valueListener 0 ⟨"42", valueAB12⟩).1

/-- The instance `populatedValueListener` after a second call
`listen(new Set(['child_added']))`. -/
def populatedThenChild : FirebaseListener :=
  (listen Env.quiet populatedValueListener (some (.set ["child_added"]))).1

/-- An instance with `rehydrate = true` and the filter `['changed', 'added']`
after `listen(new Set(['child_changed', 'child_added']))`. -/
def changedAddedListener : FirebaseListener :=
  (listen Env.quiet
    (FirebaseListener.init roomRef
      { rehydrate := some true, notifyOn := some (.inr ["changed", "added"]),
        onError := none } roomRef.url)
    (some (.set ["child_changed", "child_added"]))).1

/-! ## Deletion, filtering and change detection -/

theorem onMaybeUpdateClient_state (env : Env) (l : FirebaseListener) (schema : Schema)
    (change_event : Option String) (value_changed : Bool) :
    (onMaybeUpdateClient env l schema change_event value_changed).1.state = l.state := by
  unfold onMaybeUpdateClient
  repeat' split
  all_goals rfl

/-- C1. Whatever the cache holds and whatever the notification kind and key, a
snapshot whose raw value is `null` is reduced to the change kind `removed` with
the new value `undefined`, and `onSnapshot` leaves `undefined` in the cache. -/
theorem onSnapshot_null_removed (env : Env) (l : FirebaseListener) (method event key : String) :
    (∃ cur vc, reduce l.state.value event key .null
        = .ok ⟨cur, .undefined, some "removed", vc⟩)
    ∧ (onSnapshot env l method event ⟨key, .null⟩).1.state.value = .undefined := by
  constructor
  · simp only [reduce, JSValue.isNull, if_true]
    exact ⟨_, _, rfl⟩
  · simp [onSnapshot, reduce, JSValue.isNull, onMaybeUpdateClient_state]

theorem shouldPublish_iff (notifyOn : List String) (change_event : String) (value_changed : Bool) :
    shouldPublish notifyOn (some change_event) value_changed = true
      ↔ ("all" ∈ notifyOn ∨ change_event ∈ notifyOn
          ∨ ("changed" ∈ notifyOn ∧ value_changed = true)) := by
  simp [shouldPublish]
  tauto

/-- Support for C2: when the clone of the cache returns, `onMaybeUpdateClient`
calls `publish` (once, with the change kind, the copy and the schema) exactly
when `notifyOn` contains `all`, or the change kind, or `changed` while
`value_changed` is true; in every other case it changes nothing and raises
nothing. -/
theorem onMaybeUpdateClient_publish_iff (env : Env) (l : FirebaseListener) (schema : Schema)
    (change_event : String) (value_changed : Bool) (copy : JSValue)
    (hclone : Immutable.asMutable l.state.value = .ok copy) :
    ((onMaybeUpdateClient env l schema (some change_event) value_changed).1.observer.publishCalls
        = l.observer.publishCalls ++ [⟨some change_event, copy, schema⟩]
      ↔ ("all" ∈ l.config.notifyOn ∨ change_event ∈ l.config.notifyOn
          ∨ ("changed" ∈ l.config.notifyOn ∧ value_changed = true)))
    ∧ (¬ ("all" ∈ l.config.notifyOn ∨ change_event ∈ l.config.notifyOn
          ∨ ("changed" ∈ l.config.notifyOn ∧ value_changed = true))
        → onMaybeUpdateClient env l schema (some change_event) value_changed = (l, none)) := by
  have key := shouldPublish_iff l.config.notifyOn change_event value_changed
  by_cases h : shouldPublish l.config.notifyOn (some change_event) value_changed = true
  · have hc := key.mp h
    refine ⟨⟨fun _ => hc, fun _ => ?_⟩, fun hn => absurd hc hn⟩
    unfold onMaybeUpdateClient
    rw [if_pos h, hclone]
    by_cases hp : env.publishRaises (some change_event) = true
    · simp [hp, PromiseQueue.publish]
    · simp [hp, PromiseQueue.publish]
  · have hc : ¬ ("all" ∈ l.config.notifyOn ∨ change_event ∈ l.config.notifyOn
          ∨ ("changed" ∈ l.config.notifyOn ∧ value_changed = true)) := fun hc => h (key.mpr hc)
    have hres : onMaybeUpdateClient env l schema (some change_event) value_changed = (l, none) := by
      unfold onMaybeUpdateClient
      rw [if_neg h]
    refine ⟨⟨fun hpub => ?_, fun h2 => absurd h2 hc⟩, fun _ => hres⟩
    rw [hres] at hpub
    simp at hpub

theorem onMaybeUpdateClient_absent (env : Env) (l : FirebaseListener) (schema : Schema)
    (change_event : Option String) (value_changed : Bool)
    (habsent : l.state.value = .undefined)
    (hfilter : shouldPublish l.config.notifyOn change_event value_changed = true) :
    onMaybeUpdateClient env l schema change_event value_changed
      = (l, l.rethrow absentCacheError "update-client") := by
  simp [onMaybeUpdateClient, hfilter, habsent, Immutable.asMutable, absentCacheError]

/-- C2, evaluated at the failing input.  The filter is `'all'` and the cache is
`{a: 1}`.  A `value` snapshot of the deleted path (raw value `null`) empties the
cache and reaches `onMaybeUpdateClient` with the change kind `removed`, which
the filter admits; the clone of the absent cache raises a `TypeError` before
`publish` is called, so nothing is published and the error is raised again.
The same happens on a new listener for the change kind `changed` under the
default filter. -/
theorem absent_cache_admitted_not_published :
    allListener.config.notifyOn = ["all"]
    ∧ allListener.state.value = .obj (.cons "a" (.num 1) .nil)
    ∧ shouldPublish allListener.config.notifyOn (some "removed") true = true
    ∧ (onSnapshot Env.quiet allListener "on" "value" ⟨"42", .null⟩).1.state.value = .undefined
    ∧ (onSnapshot Env.quiet allListener "on" "value" ⟨"42", .null⟩).1.observer.publishCalls = []
    ∧ (onSnapshot Env.quiet allListener "on" "value" ⟨"42", .null⟩).2 = some absentCacheError
    ∧ shouldPublish roomListener.config.notifyOn (some "changed") false = true
    ∧ (onMaybeUpdateClient Env.quiet roomListener .empty (some "changed") false).1.observer.publishCalls
        = []
    ∧ (onMaybeUpdateClient Env.quiet roomListener .empty (some "changed") false).2
        = some absentCacheError := by
  refine ⟨by decide, by decide, by decide, by decide, by decide, by decide, by decide, by decide,
    by decide⟩

/-- C3, evaluated at the failing input.  The default listener has an absent
cache; a `rehydrate` snapshot of an empty path (raw value `null`) leaves the
cache absent, yet `value_changed` is `true`, because the cache had first been
replaced by a new empty object (`typeof null === 'object'`).  The filter
`['changed', 'off', 'cancelled']` therefore admits the `removed` change, and the
dispatch raises in the clone of the absent cache instead of staying silent. -/
theorem onSnapshot_absent_null_flags_change :
    roomListener.state.value = .undefined
    ∧ reduce .undefined "rehydrate" "42" .null
        = .ok ⟨.obj .nil, .undefined, some "removed", true⟩
    ∧ (onSnapshot Env.quiet roomListener "on" "rehydrate" ⟨"42", .null⟩).1.state.value
        = .undefined
    ∧ roomListener.config.notifyOn = ["changed", "off", "cancelled"]
    ∧ shouldPublish roomListener.config.notifyOn (some "removed") true = true
    ∧ shouldPublish roomListener.config.notifyOn (some "removed") false = false
    ∧ (onSnapshot Env.quiet roomListener "on" "rehydrate" ⟨"42", .null⟩).1.observer.publishCalls
        = []
    ∧ (onSnapshot Env.quiet roomListener "on" "rehydrate" ⟨"42", .null⟩).2
        = some absentCacheError :=
  ⟨rfl, rfl, by decide, rfl, by decide, by decide, by decide, by decide⟩

theorem Upd.reduction_new_value_shape (u : Upd) (cur : JSValue) (c : String)
    (hcur : cur.cacheShape = true)
    (hu : ∀ v, u = .fresh v → v.cacheShape = true) :
    (u.reduction cur c).new_value.cacheShape = true := by
  cases u with
  | same => simpa [Upd.reduction] using hcur
  | fresh v => simpa [Upd.reduction] using hu v rfl

theorem Immutable.replace_shape (cur value : JSValue) (u : Upd)
    (h : Immutable.replace cur value = .ok u) : ∀ v, u = .fresh v → v.cacheShape = true := by
  intro v hv
  subst hv
  unfold Immutable.replace at h
  cases value <;> cases cur <;> simp at h <;>
    (split at h <;> first | (simp at h; done) | (simp at h; subst h; rfl))

theorem Immutable.setDeep_shape (cur : JSValue) (key : String) (value : JSValue) (u : Upd)
    (h : Immutable.setDeep cur key value = .ok u) : ∀ v, u = .fresh v → v.cacheShape = true := by
  intro v hv
  subst hv
  unfold Immutable.setDeep at h
  cases cur <;> simp at h <;> (split at h <;> first | (simp at h; done) | (simp at h; subst h; rfl))

theorem Immutable.set_shape (cur : JSValue) (key : String) (value : JSValue) (u : Upd)
    (h : Immutable.set cur key value = .ok u) : ∀ v, u = .fresh v → v.cacheShape = true := by
  intro v hv
  subst hv
  unfold Immutable.set at h
  cases cur <;> simp at h <;> (split at h <;> first | (simp at h; done) | (simp at h; subst h; rfl))

theorem Immutable.without_shape (cur : JSValue) (key : String) (u : Upd)
    (h : Immutable.without cur key = .ok u) : ∀ v, u = .fresh v → v.cacheShape = true := by
  intro v hv
  subst hv
  unfold Immutable.without at h
  cases cur <;> simp at h <;> (subst h; rfl)

theorem Except.map_eq_ok {ε α β : Type} (f : α → β) (x : Except ε α) (b : β)
    (h : x.map f = .ok b) : ∃ a, x = .ok a ∧ f a = b := by
  cases x with
  | error e => simp [Except.map] at h
  | ok a => exact ⟨a, rfl, by simpa [Except.map] using h⟩

/-- The cache is always absent, an object or an array: `reduce` keeps that
shape, and the constructor starts from `undefined`. -/
theorem reduce_new_value_shape (cached : JSValue) (event key : String) (value : JSValue)
    (r : Reduction) (hcached : cached.cacheShape = true)
    (h : reduce cached event key value = .ok r) : r.new_value.cacheShape = true := by
  have hcur : (if (!cached.truthy && value.typeofObject) = true then
      (if value.isArray = true then JSValue.arr .nil else JSValue.obj .nil)
      else cached).cacheShape = true := by
    split_ifs <;> first | rfl | exact hcached
  unfold reduce at h
  simp only at h
  generalize (if (!cached.truthy && value.typeofObject) = true then
      (if value.isArray = true then JSValue.arr .nil else JSValue.obj .nil)
      else cached) = cur at h hcur
  split_ifs at h
  · cases h; rfl
  · obtain ⟨u, hu, hr⟩ := Except.map_eq_ok _ _ _ h
    rw [← hr]
    exact Upd.reduction_new_value_shape u _ _ hcur (Immutable.replace_shape _ _ u hu)
  · obtain ⟨u, hu, hr⟩ := Except.map_eq_ok _ _ _ h
    rw [← hr]
    exact Upd.reduction_new_value_shape u _ _ hcur (Immutable.replace_shape _ _ u hu)
  · obtain ⟨u, hu, hr⟩ := Except.map_eq_ok _ _ _ h
    rw [← hr]
    exact Upd.reduction_new_value_shape u _ _ hcur (Immutable.setDeep_shape _ _ _ u hu)
  · obtain ⟨u, hu, hr⟩ := Except.map_eq_ok _ _ _ h
    rw [← hr]
    exact Upd.reduction_new_value_shape u _ _ hcur (Immutable.without_shape _ _ u hu)
  · obtain ⟨u, hu, hr⟩ := Except.map_eq_ok _ _ _ h
    rw [← hr]
    exact Upd.reduction_new_value_shape u _ _ hcur (Immutable.set_shape _ _ _ u hu)
  · cases h; rfl

/-! ## Child updates and the example scenario -/

theorem Fields.get?_assign_self : ∀ (fs : Fields) (k : String) (v : JSValue),
    (fs.assign k v).get? k = some v
  | .nil, k, v => by simp [Fields.assign, Fields.get?]
  | .cons key w rest, k, v => by
      have ih := Fields.get?_assign_self rest k v
      by_cases h : key = k
      · simp [Fields.assign, Fields.get?, h]
      · simp [Fields.assign, Fields.get?, h, ih]

theorem Fields.get?_assign_ne : ∀ (fs : Fields) (k k' : String) (v : JSValue), k' ≠ k →
    (fs.assign k v).get? k' = fs.get? k'
  | .nil, k, k', v, h => by simp [Fields.assign, Fields.get?, Ne.symm h]
  | .cons key w rest, k, k', v, h => by
      have ih := Fields.get?_assign_ne rest k k' v h
      by_cases hk : key = k
      · subst hk
        simp [Fields.assign, Fields.get?, Ne.symm h]
      · by_cases hk' : key = k'
        · subst hk'
          simp [Fields.assign, Fields.get?, hk]
        · simp [Fields.assign, Fields.get?, hk, hk', ih]

theorem Fields.get?_erase_self : ∀ (fs : Fields) (k : String), (fs.erase k).get? k = none
  | .nil, k => by simp [Fields.erase, Fields.get?]
  | .cons key w rest, k => by
      have ih := Fields.get?_erase_self rest k
      by_cases h : key = k
      · simp [Fields.erase, h, ih]
      · simp [Fields.erase, Fields.get?, h, ih]

theorem Fields.get?_erase_ne : ∀ (fs : Fields) (k k' : String), k' ≠ k →
    (fs.erase k).get? k' = fs.get? k'
  | .nil, k, k', _ => by simp [Fields.erase, Fields.get?]
  | .cons key w rest, k, k', h => by
      have ih := Fields.get?_erase_ne rest k k' h
      by_cases hk : key = k
      · subst hk
        simp [Fields.erase, Fields.get?, Ne.symm h, ih]
      · by_cases hk' : key = k'
        · subst hk'
          simp [Fields.erase, Fields.get?, hk]
        · simp [Fields.erase, Fields.get?, hk, hk', ih]

theorem JSValue.eq_of_primEq {a b : JSValue} (h : a.primEq b = true) : a = b := by
  cases a <;> cases b <;> simp_all [JSValue.primEq]

theorem onSnapshot_value (env : Env) (l : FirebaseListener) (method event : String)
    (snapshot : Snapshot) (r : Reduction)
    (h : reduce l.state.value event snapshot.key snapshot.val = .ok r) :
    (onSnapshot env l method event snapshot).1.state.value = r.new_value := by
  simp [onSnapshot, h, onMaybeUpdateClient_state]

theorem reduce_child_changed (fs : Fields) (k : String) (v : JSValue) (hv : v ≠ .null) :
    ∃ fs' vc, reduce (.obj fs) "child_changed" k v
        = .ok ⟨.obj fs, .obj fs', some "changed", vc⟩
      ∧ fs'.get? k = some v ∧ ∀ k', k' ≠ k → fs'.get? k' = fs.get? k' := by
  have hnull : v.isNull = false := by cases v <;> simp_all [JSValue.isNull]
  cases hset : setEntry (fs.get? k) v with
  | none =>
      refine ⟨fs, false, ?_, ?_, fun _ _ => rfl⟩
      · simp [reduce, hnull, JSValue.truthy, Immutable.set, hset, Upd.reduction, Except.map]
      · unfold setEntry at hset
        cases hget : fs.get? k with
        | none => simp [hget] at hset
        | some c =>
            simp only [hget] at hset
            by_cases hpe : c.primEq v = true
            · rw [JSValue.eq_of_primEq hpe]
            · simp [hpe] at hset
  | some nv =>
      have hnv : nv = v := by
        unfold setEntry at hset
        cases hget : fs.get? k with
        | none => simpa [hget] using hset.symm
        | some c =>
            simp only [hget] at hset
            by_cases hpe : c.primEq v = true
            · simp [hpe] at hset
            · simpa [hpe] using hset.symm
      subst hnv
      refine ⟨fs.assign k nv, true, ?_, Fields.get?_assign_self fs k nv,
        fun k' hk' => Fields.get?_assign_ne fs k k' nv hk'⟩
      simp [reduce, hnull, JSValue.truthy, Immutable.set, hset, Upd.reduction, Except.map]

theorem reduce_child_removed (fs : Fields) (k : String) (v : JSValue) (hv : v ≠ .null) :
    reduce (.obj fs) "child_removed" k v
        = .ok ⟨.obj fs, .obj (fs.erase k), some "removed", true⟩ := by
  have hnull : v.isNull = false := by cases v <;> simp_all [JSValue.isNull]
  simp [reduce, hnull, JSValue.truthy, Immutable.without, Upd.reduction, Except.map]

/-- Support for C4: for every object cache, key `k` and raw value `v` other
than the deletion sentinel, child_changed yields kind `changed` and the cache
with `k` set to `v`, child_removed yields kind `removed` and the cache without
`k`; every other key keeps its value. -/
theorem child_updates_on_object_cache (env : Env) (l : FirebaseListener) (method k : String)
    (fs : Fields) (v : JSValue) (hobj : l.state.value = .obj fs) (hv : v ≠ .null) :
    (∃ fs' vc, reduce (.obj fs) "child_changed" k v
            = .ok ⟨.obj fs, .obj fs', some "changed", vc⟩
        ∧ (onSnapshot env l method "child_changed" ⟨k, v⟩).1.state.value = .obj fs'
        ∧ fs'.get? k = some v ∧ ∀ k', k' ≠ k → fs'.get? k' = fs.get? k')
    ∧ (∃ fs' vc, reduce (.obj fs) "child_removed" k v
            = .ok ⟨.obj fs, .obj fs', some "removed", vc⟩
        ∧ (onSnapshot env l method "child_removed" ⟨k, v⟩).1.state.value = .obj fs'
        ∧ fs'.get? k = none ∧ ∀ k', k' ≠ k → fs'.get? k' = fs.get? k') := by
  refine ⟨?_, ?_⟩
  · obtain ⟨fs', vc, hred, hk, hrest⟩ := reduce_child_changed fs k v hv
    refine ⟨fs', vc, hred, ?_, hk, hrest⟩
    have h := onSnapshot_value env l method "child_changed" ⟨k, v⟩ _ (by rw [hobj]; exact hred)
    simpa using h
  · refine ⟨fs.erase k, true, reduce_child_removed fs k v hv, ?_,
      Fields.get?_erase_self fs k, fun k' hk' => Fields.get?_erase_ne fs k k' hk'⟩
    have h := onSnapshot_value env l method "child_removed" ⟨k, v⟩ _
      (by rw [hobj]; exact reduce_child_removed fs k v hv)
    simpa using h

/-- C4, evaluated at the failing input.  With `notifyOn = ['changed', 'added',
'removed']` and an absent cache, the notifications rehydrate `{a: 1, b: 2}`,
child_changed `b` to `3`, child_removed `a`, then a `null` snapshot leave the
caches `{a: 1, b: 2}`, `{a: 1, b: 3}`, `{b: 3}`, `undefined`, and the reducer
gives the fourth the kind `removed`.  Only three changes are published
(`rehydrated`, `changed`, `removed`): the fourth dispatch raises a `TypeError`
in the clone of the absent cache before `publish` is called.  On the absent
cache a child_changed notification with the raw value `3` raises in the library
and leaves the cache absent. -/
theorem scenario_deletion_not_published :
    scenarioListener.state.value = .undefined
    ∧ scenarioListener.config.notifyOn = ["changed", "added", "removed"]
    ∧ [1, 2, 3, 4].map (fun n =>
          (dispatchAll Env.quiet scenarioListener (scenarioNotifications.take n)).state.value)
        = [valueAB12, valueAB13, valueB3, .undefined]
    ∧ reduce valueB3 "value" "42" .null = .ok ⟨valueB3, .undefined, some "removed", true⟩
    ∧ (dispatchAll Env.quiet scenarioListener scenarioNotifications).observer.publishCalls.map
          (fun c => (c.change_event, c.value))
        = [(some "rehydrated", valueAB12), (some "changed", valueAB13),
           (some "removed", valueB3)]
    ∧ (onSnapshot Env.quiet (dispatchAll Env.quiet scenarioListener (scenarioNotifications.take 3))
          "on" "value" ⟨"42", .null⟩).2 = some absentCacheError
    ∧ reduce .undefined "child_changed" "b" (.num 3)
        = .error (.typeError "set: receiver is not an object")
    ∧ (onSnapshot Env.quiet scenarioListener "on" "child_changed" ⟨"b", .num 3⟩).1.state.value
        = .undefined := by
  refine ⟨rfl, by decide, by decide, rfl, by decide, by decide, rfl, by decide⟩

/-- C5, evaluated at the failing input.  The cache is `{a: [1]}` and the filter
is `['changed']`.  A child_added notification for `a` with the raw value `[1]`
carries the same data as the existing child, but an array is not merged: the
child is replaced by a new copy, so the cache is a new object with the same
data, `value_changed` is `true`, and the change is published. -/
theorem child_added_equal_array_flags_change :
    arrayChildListener.state.value = valueWithArray
    ∧ valueWithArray = .obj (.cons "a" arrayOne .nil)
    ∧ arrayChildListener.config.notifyOn = ["changed"]
    ∧ reduce valueWithArray "child_added" "a" arrayOne
        = .ok ⟨valueWithArray, valueWithArray, some "added", true⟩
    ∧ (onSnapshot Env.quiet arrayChildListener "on" "child_added"
          ⟨"a", arrayOne⟩).1.observer.publishCalls
        = [⟨some "added", valueWithArray, .snapshot "on" "child_added" "a" arrayOne⟩] :=
  ⟨rfl, rfl, rfl, rfl, by decide⟩

theorem clearDroppedKeys_none (cur other : Fields) : ∀ (rest : Fields),
    (∀ k, rest.has k = true → other.has k = true) →
    clearDroppedKeys cur other rest none = none
  | .nil, _ => rfl
  | .cons key w rest, h => by
      have hkey : other.has key = true := h key (by simp [Fields.has, Fields.get?])
      have hrest : ∀ k, rest.has k = true → other.has k = true := by
        intro k hk
        apply h
        by_cases hkk : key = k
        · simp [Fields.has, Fields.get?, hkk]
        · simpa [Fields.has, Fields.get?, hkk] using hk
      simp only [clearDroppedKeys, hkey, if_true]
      exact clearDroppedKeys_none cur other rest hrest

mutual
theorem mergeEntry_same : ∀ (v : JSValue), v.plain = true → mergeEntry (some v) v = none
  | .undefined, _ => by simp [mergeEntry, JSValue.primEq]
  | .null, _ => by simp [mergeEntry, JSValue.primEq]
  | .bool b, _ => by simp [mergeEntry, JSValue.primEq]
  | .num n, _ => by simp [mergeEntry, JSValue.primEq]
  | .str t, _ => by simp [mergeEntry, JSValue.primEq]
  | .arr items, h => by simp [JSValue.plain] at h
  | .obj fs, h => by
      have hfs : fs.plain = true := by simpa [JSValue.plain] using h
      have hassign := mergeAssign_same fs fs hfs (fun _ _ => rfl)
      have hclear := clearDroppedKeys_none fs fs fs (fun _ hk => hk)
      simp [mergeEntry, hassign, hclear]
theorem mergeAssign_same : ∀ (other cur : Fields), other.plain = true →
    (∀ k, other.has k = true → cur.get? k = other.get? k) →
    mergeAssign cur other none = none
  | .nil, _, _, _ => rfl
  | .cons key v rest, cur, hplain, hcur => by
      have hp : v.plain = true ∧ rest.has key = false ∧ rest.plain = true := by
        simpa [Fields.plain, Bool.and_eq_true, and_assoc] using hplain
      have hget : cur.get? key = some v := by
        rw [hcur key (by simp [Fields.has, Fields.get?])]
        simp [Fields.get?]
      have hrest : ∀ k, rest.has k = true → cur.get? k = rest.get? k := by
        intro k hk
        have hne : key ≠ k := by
          intro hkk
          rw [hkk] at hp
          rw [hp.2.1] at hk
          exact Bool.noConfusion hk
        rw [hcur k (by simpa [Fields.has, Fields.get?, hne] using hk)]
        simp [Fields.get?, hne]
      simp only [mergeAssign, hget, mergeEntry_same v hp.1]
      exact mergeAssign_same rest cur hp.2.2 hrest
end

/-- Support for C5: when the raw value of a child_added notification is plain
(no array inside), is not the deletion sentinel and is the data already cached
under the key, the reducer returns the cache itself with `value_changed`
false, and a filter that holds neither `all` nor `added` publishes nothing. -/
theorem child_added_same_plain (env : Env) (l : FirebaseListener) (method k : String)
    (fs : Fields) (v : JSValue) (hobj : l.state.value = .obj fs) (hk : fs.get? k = some v)
    (hplain : v.plain = true) (hv : v ≠ .null)
    (hall : "all" ∉ l.config.notifyOn) (hadded : "added" ∉ l.config.notifyOn) :
    reduce (.obj fs) "child_added" k v = .ok ⟨.obj fs, .obj fs, some "added", false⟩
    ∧ onSnapshot env l method "child_added" ⟨k, v⟩ = (l, none) := by
  have hnull : v.isNull = false := by cases v <;> simp_all [JSValue.isNull]
  have hred : reduce (.obj fs) "child_added" k v
      = .ok ⟨.obj fs, .obj fs, some "added", false⟩ := by
    simp [reduce, hnull, JSValue.truthy, Immutable.setDeep, hk, mergeEntry_same v hplain,
      Upd.reduction, Except.map]
  refine ⟨hred, ?_⟩
  have hfilter : shouldPublish l.config.notifyOn (some "added") false = false := by
    simp [shouldPublish, hall, hadded]
  have hl : ({ l with state := { l.state with value := .obj fs } } : FirebaseListener) = l := by
    cases l with
    | mk ref url config state isCancelled observer =>
        cases state
        simp_all
  simp only [onSnapshot, hobj, hred]
  simp [onMaybeUpdateClient, hl, hfilter]

/-! ## Registry and cancellation -/

theorem Registry.has_set (r : Registry) (url : String) (id : Nat) :
    (r.set url id).has url = true := by
  unfold Registry.set
  by_cases h : r.has url = true
  · rw [if_pos h]
    unfold Registry.has at h ⊢
    rw [List.any_eq_true] at h ⊢
    obtain ⟨p, hp, hpu⟩ := h
    exact ⟨(url, id), List.mem_map.mpr ⟨p, hp, by simp [hpu]⟩, by simp⟩
  · rw [if_neg h]
    simp [Registry.has]

theorem Registry.get_map_set (url : String) (id : Nat) : ∀ (r : List (String × Nat)),
    (r.any (fun p => p.1 == url)) = true →
    ((r.map (fun p => if p.1 == url then (url, id) else p)).find? (fun p => p.1 == url)).map
        (·.2) = some id
  | [], h => by simp at h
  | p :: rest, h => by
      by_cases hp : (p.1 == url) = true
      · simp [List.find?, hp]
      · have hrest : (rest.any (fun p => p.1 == url)) = true := by
          simpa [List.any_cons, hp] using h
        have ih := Registry.get_map_set url id rest hrest
        simp only [List.map_cons, hp]
        simpa [List.find?, hp] using ih

theorem Registry.get_set (r : Registry) (url : String) (id : Nat) :
    (r.set url id).get url = some id := by
  unfold Registry.set Registry.get
  by_cases h : r.has url = true
  · rw [if_pos h]
    exact Registry.get_map_set url id r h
  · rw [if_neg h]
    have hnone : r.find? (fun p => p.1 == url) = none := by
      rw [List.find?_eq_none]
      intro p hp hpu
      exact h (by unfold Registry.has; exact List.any_eq_true.mpr ⟨p, hp, hpu⟩)
    simp [List.find?_append, hnone]

theorem Registry.get_isSome_of_has (r : Registry) (url : String) (h : r.has url = true) :
    (r.get url).isSome = true := by
  unfold Registry.has at h
  unfold Registry.get
  obtain ⟨p, hp, hpu⟩ := List.any_eq_true.mp h
  cases hf : r.find? (fun p => p.1 == url) with
  | none =>
      rw [List.find?_eq_none] at hf
      exact absurd hpu (hf p hp)
  | some q => rfl

/-- C6. Two successive calls of `createFirebaseListener` for references with the
same `toString()` return the same instance, and the second call leaves the
world (instances and registry) as the first call left it. -/
theorem createFirebaseListener_idempotent (w : World) (ref ref' : Ref)
    (config config' : UserConfig) (h : ref'.url = ref.url) :
    (createFirebaseListener w ref config).2.isSome = true
    ∧ (createFirebaseListener (createFirebaseListener w ref config).1 ref' config').2
        = (createFirebaseListener w ref config).2
    ∧ (createFirebaseListener (createFirebaseListener w ref config).1 ref' config').1
        = (createFirebaseListener w ref config).1 := by
  by_cases hhas : w.registry.has ref.url = true
  · have h1 : createFirebaseListener w ref config = (w, w.registry.get ref.url) := by
      simp [createFirebaseListener, hhas]
    have h2 : createFirebaseListener w ref' config' = (w, w.registry.get ref.url) := by
      simp [createFirebaseListener, h, hhas]
    rw [h1]
    exact ⟨Registry.get_isSome_of_has _ _ hhas, by rw [h2], by rw [h2]⟩
  · have h1 : createFirebaseListener w ref config
        = ((construct w ref config ref.url).1, some (construct w ref config ref.url).2) := by
      simp [createFirebaseListener, hhas]
    rw [h1]
    have hreg : (construct w ref config ref.url).1.registry.has ref.url = true := by
      simp [construct, Registry.has_set]
    have hget : (construct w ref config ref.url).1.registry.get ref.url
        = some (construct w ref config ref.url).2 := by
      simp [construct, Registry.get_set]
    have h2 : createFirebaseListener (construct w ref config ref.url).1 ref' config'
        = ((construct w ref config ref.url).1, some (construct w ref config ref.url).2) := by
      simp only [createFirebaseListener, h, hreg, if_true, hget]
    exact ⟨rfl, by rw [h2], by rw [h2]⟩

/-- Witness for C6: two calls for `/rooms/42` on an empty registry. -/
theorem createFirebaseListener_idempotent_witness :
    roomRef.url = roomRef.url
    ∧ (createFirebaseListener ⟨[], []⟩ roomRef UserConfig.defaults).2.isSome = true
    ∧ (createFirebaseListener (createFirebaseListener ⟨[], []⟩ roomRef UserConfig.defaults).1
          roomRef UserConfig.defaults).2
        = (createFirebaseListener ⟨[], []⟩ roomRef UserConfig.defaults).2
    ∧ (createFirebaseListener (createFirebaseListener ⟨[], []⟩ roomRef UserConfig.defaults).1
          roomRef UserConfig.defaults).1
        = (createFirebaseListener ⟨[], []⟩ roomRef UserConfig.defaults).1 :=
  ⟨rfl, createFirebaseListener_idempotent ⟨[], []⟩ roomRef roomRef UserConfig.defaults
    UserConfig.defaults rfl⟩

theorem onMaybeUpdateClient_isCancelled (env : Env) (l : FirebaseListener) (schema : Schema)
    (change_event : Option String) (value_changed : Bool) :
    (onMaybeUpdateClient env l schema change_event value_changed).1.isCancelled
      = l.isCancelled := by
  unfold onMaybeUpdateClient
  repeat' split
  all_goals rfl

theorem cancelLoop_isCancelled (env : Env) : ∀ (events : List String) (l : FirebaseListener)
    (done : List String), (cancelLoop env l events done).1.isCancelled = l.isCancelled
  | [], l, done => rfl
  | event :: rest, l, done => by
      unfold cancelLoop
      cases lookupListener l.state.listeners event with
      | none => exact cancelLoop_isCancelled env rest l done
      | some id =>
          simp only
          cases l.ref.off env event (some id) with
          | error e => rfl
          | ok ref1 =>
              simp only
              cases l.state.events.delete event with
              | error e => rfl
              | ok events1 => simp only [cancelLoop_isCancelled env rest]

theorem cancelEvents_isCancelled (env : Env) (l : FirebaseListener) (events : Events) :
    (cancelEvents env l events).1.isCancelled = l.isCancelled := by
  unfold cancelEvents
  have hloop := cancelLoop_isCancelled env events.items l []
  rcases hres : cancelLoop env l events.items [] with ⟨l1, done, err⟩
  rw [hres] at hloop
  simp only at hloop
  cases err with
  | some e => simpa using hloop
  | none =>
      simp only
      split_ifs
      · have hpub := onMaybeUpdateClient_isCancelled env l1 (.cancelledEvents done) (some "off") false
        rcases hm : onMaybeUpdateClient env l1 (.cancelledEvents done) (some "off") false
          with ⟨l2, err2⟩
        rw [hm] at hpub
        cases err2 <;> simpa [hloop] using hpub
      · simpa using hloop

theorem cancel_isCancelled (env : Env) (registry : Registry) (l : FirebaseListener) :
    (cancel env registry l).2.1.isCancelled = true := by
  have hoff := cancelEvents_isCancelled env { l with isCancelled := true }
    ({ l with isCancelled := true } : FirebaseListener).state.events
  unfold cancel cancelBody off
  simp only
  rcases hres : cancelEvents env { l with isCancelled := true } l.state.events with ⟨l2, err⟩
  rw [hres] at hoff
  simp only at hoff
  cases err with
  | some e => simpa using hoff
  | none =>
      simp only
      split_ifs
      · have hpub := onMaybeUpdateClient_isCancelled env
          { l2 with observer := l2.observer.cancel env } .empty (some "cancelled") false
        rcases hm : onMaybeUpdateClient env { l2 with observer := l2.observer.cancel env }
          .empty (some "cancelled") false with ⟨l4, err4⟩
        rw [hm] at hpub
        cases err4 <;> simpa [hoff] using hpub
      · simpa using hoff

/-- C7. `cancel()` always leaves `isCancelled` set.  On a listener whose
`isCancelled` is set, `listen` with any argument changes nothing (no call on the
remote reference, same `events`, `listeners` and `initializer`); it raises the
cancellation error unless the error hook returns `false`, in which case it
returns normally. -/
theorem listen_after_cancel (env : Env) (registry : Registry) (l0 l : FirebaseListener)
    (_events : Option Events) (h : l.isCancelled = true) :
    (cancel env registry l0).2.1.isCancelled = true
    ∧ (listen env l _events).1 = l
    ∧ (l.onError .cancelledListen "listen" ≠ .bool false
        → (listen env l _events).2 = some .cancelledListen)
    ∧ (l.onError .cancelledListen "listen" = .bool false
        → (listen env l _events).2 = none) := by
  have hbody : listenBody env l _events = (l, some .cancelledListen) := by
    simp [listenBody, h]
  refine ⟨cancel_isCancelled env registry l0, ?_, ?_, ?_⟩
  · simp [listen, hbody]
  · intro hne
    have hthrow : shouldThrow (l.onError .cancelledListen "listen") = true := by
      unfold shouldThrow
      split
      · exact absurd ‹_› hne
      · rfl
    simp [listen, hbody, FirebaseListener.rethrow, hthrow]
  · intro heq
    simp [listen, hbody, FirebaseListener.rethrow, heq, shouldThrow]

/-- Witness for C7: `listen(new Set(['value']))` on the cancelled instance
`cancelledPending`, whose default hook returns `undefined`. -/
theorem listen_after_cancel_witness :
    cancelledPending.isCancelled = true
    ∧ (cancel Env.quiet [] roomListener).2.1.isCancelled = true
    ∧ (listen Env.quiet cancelledPending (some (.set ["value"]))).1 = cancelledPending
    ∧ (cancelledPending.onError .cancelledListen "listen" ≠ .bool false
        → (listen Env.quiet cancelledPending (some (.set ["value"]))).2 = some .cancelledListen)
    ∧ (cancelledPending.onError .cancelledListen "listen" = .bool false
        → (listen Env.quiet cancelledPending (some (.set ["value"]))).2 = none) :=
  ⟨by decide, listen_after_cancel Env.quiet [] roomListener cancelledPending
    (some (.set ["value"])) (by decide)⟩

/-- C8, evaluated at the failing input.  The instance registered for
`/rooms/42` has an active `value` listener and the remote `off` raises.  Then
`cancel()` sets `isCancelled`, raises the remote error, and the registry still
holds the path; with a hook that swallows the error of `cancel` the call
returns normally and the registry still holds the path.  The same happens
without any remote failure while the cache is absent: publishing `off` raises
in the clone, and the path stays registered.  On the path without exception
(the cache holds `{a: 1, b: 2}`, `off` does not raise) the path is removed. -/
theorem cancel_keeps_registry_entry_when_off_raises :
    worldNoRehydrate.registry = [(roomRef.url, 0)]
    ∧ valueListener.state.listeners = [("value", 0)]
    ∧ (cancel Env.offFails worldNoRehydrate.registry valueListener).2.1.isCancelled = true
    ∧ (cancel Env.offFails worldNoRehydrate.registry valueListener).2.2
        = some (.remoteError "off" "value")
    ∧ getActiveFirebasePaths (cancel Env.offFails worldNoRehydrate.registry valueListener).1
        = [roomRef.url]
    ∧ (cancel Env.offFails worldNoRehydrate.registry valueListenerHooked).2.1.isCancelled = true
    ∧ (cancel Env.offFails worldNoRehydrate.registry valueListenerHooked).2.2 = none
    ∧ getActiveFirebasePaths (cancel Env.offFails worldNoRehydrate.registry valueListenerHooked).1
        = [roomRef.url]
    ∧ valueListener.state.value = .undefined
    ∧ (cancel Env.quiet worldNoRehydrate.registry valueListener).2.1.isCancelled = true
    ∧ (cancel Env.quiet worldNoRehydrate.registry valueListener).2.2 = some absentCacheError
    ∧ getActiveFirebasePaths (cancel Env.quiet worldNoRehydrate.registry valueListener).1
        = [roomRef.url]
    ∧ populatedValueListener.state.value = valueAB12
    ∧ (cancel Env.quiet worldNoRehydrate.registry populatedValueListener).2.2 = none
    ∧ getActiveFirebasePaths
        (cancel Env.quiet worldNoRehydrate.registry populatedValueListener).1 = [] := by
  refine ⟨by decide, by decide, by decide, by decide, by decide, by decide, by decide,
    by decide, by decide, by decide, by decide, by decide, by decide, by decide, by decide⟩

/-! ## Notifications after cancellation -/

/-- C9, evaluated at the failing input.  The instance `cancelledPending` is
cancelled, its cache is absent and nothing has been published.  The initializer registered by
`listen` is still subscribed; when it fires with `{a: 1, b: 2}` the dispatch
routine writes the cache and calls `publish`.  The same happens when
`onSnapshot` is entered directly with a `value` notification. -/
theorem dispatch_after_cancel_not_dropped :
    cancelledPending.isCancelled = true
    ∧ cancelledPending.state.value = .undefined
    ∧ cancelledPending.observer.publishCalls = []
    ∧ (fire Env.quiet cancelledPending 0 ⟨"42", valueAB12⟩).1.state.value = valueAB12
    ∧ (fire Env.quiet cancelledPending 0 ⟨"42", valueAB12⟩).1.observer.publishCalls
        = [⟨some "rehydrated", valueAB12, .snapshot "on" "rehydrate" "42" valueAB12⟩]
    ∧ (onSnapshot Env.quiet cancelledPending "on" "value" ⟨"42", valueAB12⟩).1.state.value
        ≠ cancelledPending.state.value
    ∧ (onSnapshot Env.quiet cancelledPending "on" "value"
          ⟨"42", valueAB12⟩).1.observer.publishCalls
        ≠ cancelledPending.observer.publishCalls := by
  refine ⟨by decide, by decide, by decide, by decide, by decide, by decide, by decide⟩

/-- Support for C9: dispatch never reads the cancelled flag.  On every listener,
cancelled or not, `onSnapshot` returns the same result up to that flag, its
cache becomes the reducer's new value (it keeps the old one when the reducer
raises), and the queue is left as `onMaybeUpdateClient` leaves it. -/
theorem onSnapshot_ignores_cancelled (env : Env) (l : FirebaseListener) (flag : Bool)
    (method event : String) (snapshot : Snapshot) :
    onSnapshot env { l with isCancelled := flag } method event snapshot
        = ({ (onSnapshot env l method event snapshot).1 with isCancelled := flag },
            (onSnapshot env l method event snapshot).2)
    ∧ (onSnapshot env { l with isCancelled := true } method event snapshot).1.state.value
        = (match reduce l.state.value event snapshot.key snapshot.val with
            | .ok r => r.new_value
            | .error _ => l.state.value)
    ∧ (onSnapshot env { l with isCancelled := true } method event snapshot).1.observer
        = (match reduce l.state.value event snapshot.key snapshot.val with
            | .ok r =>
                (onMaybeUpdateClient env
                  { l with state := { l.state with value := r.new_value } }
                  (.snapshot method event snapshot.key snapshot.val)
                  r.change_event r.value_changed).1.observer
            | .error _ => l.observer) := by
  refine ⟨?_, ?_, ?_⟩
  · unfold onSnapshot
    cases reduce l.state.value event snapshot.key snapshot.val with
    | error e => rfl
    | ok r =>
        simp only [onMaybeUpdateClient]
        repeat' split
        all_goals rfl
  · unfold onSnapshot
    cases reduce l.state.value event snapshot.key snapshot.val with
    | error e => rfl
    | ok r => simp [onMaybeUpdateClient_state]
  · unfold onSnapshot
    cases reduce l.state.value event snapshot.key snapshot.val with
    | error e => rfl
    | ok r =>
        simp only [onMaybeUpdateClient]
        repeat' split
        all_goals rfl

/-- C10, evaluated at the failing input.  After `listen(new Set(['child_added']))`
the only remote call is the initializer's subscription; `cancel()` sets
`isCancelled` and makes no remote call, so the initializer stays subscribed.
When it then fires, the cancelled instance subscribes a `child_added` listener
and records it in `listeners`. -/
theorem initializer_after_cancel_subscribes :
    cancelledPending.isCancelled = true
    ∧ cancelledPending.ref.calls = [.subscribe "on" "value" 0]
    ∧ cancelledPending.ref.active = [⟨0, "on", "value", .initializer ["child_added"]⟩]
    ∧ cancelledPending.state.listeners = []
    ∧ (fire Env.quiet cancelledPending 0 ⟨"42", valueAB12⟩).1.isCancelled = true
    ∧ (fire Env.quiet cancelledPending 0 ⟨"42", valueAB12⟩).1.ref.calls
        = [.subscribe "on" "value" 0, .subscribe "on" "child_added" 1, .off "value" (some 0)]
    ∧ (fire Env.quiet cancelledPending 0 ⟨"42", valueAB12⟩).1.ref.active
        = [⟨1, "on", "child_added", .onEvent "on" "child_added"⟩]
    ∧ (fire Env.quiet cancelledPending 0 ⟨"42", valueAB12⟩).1.state.listeners
        = [("child_added", 1)] := by
  refine ⟨by decide, by decide, by decide, by decide, by decide, by decide, by decide,
    by decide⟩

/-! ## Requested kinds and active listeners -/

/-- C11, evaluated at the failing input.  With `{rehydrate: false}`, after
`listen(new Set(['value']))`, a `value` notification carrying `{a: 1, b: 2}`
and `listen(new Set(['child_added']))`, both kinds have an active listener
while `state.events` holds `child_added` only.  `cancel()` then completes
without error (the `off` change is published), but it only visits
`state.events`: the `value` listener stays in `listeners`, stays subscribed at
the remote source, and its handle is never passed to `ref.off`. -/
theorem cancel_leaves_listener_outside_events :
    populatedThenChild.state.value = valueAB12
    ∧ populatedThenChild.state.listeners = [("value", 0), ("child_added", 1)]
    ∧ populatedThenChild.state.events = .set ["child_added"]
    ∧ (cancel Env.quiet [(roomRef.url, 0)] populatedThenChild).2.2 = none
    ∧ (cancel Env.quiet [(roomRef.url, 0)] populatedThenChild).1 = []
    ∧ (cancel Env.quiet [(roomRef.url, 0)] populatedThenChild).2.1.isCancelled = true
    ∧ (cancel Env.quiet [(roomRef.url, 0)] populatedThenChild).2.1.observer.publishCalls.map
          (fun c => c.change_event) = [some "changed", some "off"]
    ∧ (cancel Env.quiet [(roomRef.url, 0)] populatedThenChild).2.1.state.listeners
        = [("value", 0)]
    ∧ (cancel Env.quiet [(roomRef.url, 0)] populatedThenChild).2.1.ref.active
        = [⟨0, "on", "value", .onEvent "on" "value"⟩]
    ∧ (cancel Env.quiet [(roomRef.url, 0)] populatedThenChild).2.1.ref.calls
        = [.subscribe "on" "value" 0, .subscribe "on" "child_added" 1,
            .off "child_added" (some 1)] := by
  refine ⟨by decide, by decide, by decide, by decide, by decide, by decide, by decide,
    by decide, by decide, by decide⟩

/-- C12, evaluated at the failing inputs.  On a live instance `listen(['value'])`
with an array raises a `TypeError` (`events.has` is not a function, the
conversion to a `Set` being dead code) and attaches nothing.  With sets, after
`listen(new Set(['value']))` the call `listen(new Set(['child_added']))`
completes, but the requested set becomes `{child_added}`: the kind `value`
requested earlier is dropped although its listener stays active. -/
theorem listen_array_raises_and_set_replaces :
    plainListener.isCancelled = false
    ∧ (listen Env.quiet plainListener (some (.array ["value"]))).2
        = some (.typeError "events.has is not a function")
    ∧ (listen Env.quiet plainListener (some (.array ["value"]))).1.state = plainListener.state
    ∧ (listen Env.quiet plainListener (some (.array ["value"]))).1.ref.calls = []
    ∧ valueListener.isCancelled = false
    ∧ valueListener.state.events = .set ["value"]
    ∧ (listen Env.quiet valueListener (some (.set ["child_added"]))).2 = none
    ∧ (listen Env.quiet valueListener (some (.set ["child_added"]))).1.state.events
        = .set ["child_added"]
    ∧ (listen Env.quiet valueListener (some (.set ["child_added"]))).1.state.listeners
        = [("value", 0), ("child_added", 1)] := by
  refine ⟨by decide, by decide, by decide, by decide, by decide, by decide, by decide,
    by decide, by decide⟩

/-- C18, evaluated at the failing input.  `plainListener`, `valueListener` and
`valueThenChild` are reached by two `listen` calls that both return normally;
in the last state `listeners` has an entry for `value`, a kind that is not in
`state.events`. -/
theorem listener_kind_missing_from_events :
    (listen Env.quiet plainListener (some (.set ["value"]))).2 = none
    ∧ (listen Env.quiet plainListener (some (.set ["value"]))).1.state = valueListener.state
    ∧ (listen Env.quiet valueListener (some (.set ["child_added"]))).2 = none
    ∧ lookupListener valueThenChild.state.listeners "value" = some 0
    ∧ valueThenChild.state.events.items = ["child_added"]
    ∧ "value" ∉ valueThenChild.state.events.items.filter (fun e => e != "once") := by
  refine ⟨by decide, by decide, by decide, by decide, by decide, by decide⟩

/-! ## Failures while detaching, repeated cancellation -/

theorem cancelLoop_append (env : Env) : ∀ (before after : List String) (l : FirebaseListener)
    (done : List String),
    cancelLoop env l (before ++ after) done
      = (match cancelLoop env l before done with
          | (l1, done1, none) => cancelLoop env l1 after done1
          | (l1, done1, some e) => (l1, done1, some e))
  | [], after, l, done => by simp [cancelLoop]
  | event :: rest, after, l, done => by
      simp only [List.cons_append, cancelLoop]
      cases lookupListener l.state.listeners event with
      | none => exact cancelLoop_append env rest after l done
      | some id =>
          simp only
          cases l.ref.off env event (some id) with
          | error e => rfl
          | ok ref1 =>
              simp only
              cases l.state.events.delete event with
              | error e => rfl
              | ok events1 => exact cancelLoop_append env rest after _ _

/-- C13, counterexample.  Both `value` and `child_added` have an active listener
and are requested; `ref.off` raises for `value`.  `off()` raises at `value`, the
first kind: `child_added` keeps its listener and no `ref.off` is attempted for
it. -/
theorem off_stops_at_first_failure_example :
    twoKindsListener.state.listeners = [("value", 0), ("child_added", 1)]
    ∧ twoKindsListener.state.events = .set ["value", "child_added"]
    ∧ (off Env.offValueFails twoKindsListener none).2 = some (.remoteError "off" "value")
    ∧ (off Env.offValueFails twoKindsListener none).1.state.listeners
        = [("value", 0), ("child_added", 1)]
    ∧ (off Env.offValueFails twoKindsListener none).1.ref.calls
        = [.subscribe "on" "value" 0, .subscribe "on" "child_added" 1]
    ∧ RemoteCall.off "child_added" (some 1)
        ∉ (off Env.offValueFails twoKindsListener none).1.ref.calls := by
  refine ⟨by decide, by decide, by decide, by decide, by decide, by decide⟩

/-- C13, amended.  When the kinds `before` are handled without error and
`ref.off` raises for the next kind `event`, which has an active listener, the
loop of `cancelEvents` stops there: the result is the state reached after
`before` (nothing is attempted for the kinds in `after`, nothing is
published), and the hook is consulted at once with that failure in the
context `cancel-event`. -/
theorem cancelEvents_stops_at_first_failure (env : Env) (l l1 : FirebaseListener)
    (before after done1 : List String) (event : String) (id : Nat)
    (hbefore : cancelLoop env l before [] = (l1, done1, none))
    (hactive : lookupListener l1.state.listeners event = some id)
    (hraise : env.offRaises event (some id) = true) :
    cancelLoop env l (before ++ event :: after) [] = (l1, done1, some (.remoteError "off" event))
    ∧ off env l (some (.set (before ++ event :: after)))
        = (l1, l1.rethrow (.remoteError "off" event) "cancel-event") := by
  have hloop : cancelLoop env l (before ++ event :: after) []
      = (l1, done1, some (.remoteError "off" event)) := by
    rw [cancelLoop_append, hbefore]
    simp [cancelLoop, hactive, Ref.off, hraise]
  refine ⟨hloop, ?_⟩
  simp [off, cancelEvents, Events.items, hloop]

/-- Witness for C13: `off(new Set(['child_added', 'value', 'once']))` on
`twoKindsListener`; the first kind is detached, the second raises. -/
theorem cancelEvents_stops_at_first_failure_witness :
    (cancelLoop Env.offValueFails twoKindsListener ["child_added"] []
        = (childDetached, ["child_added"], none)
      ∧ lookupListener childDetached.state.listeners "value" = some 0
      ∧ Env.offValueFails.offRaises "value" (some 0) = true)
    ∧ (cancelLoop Env.offValueFails twoKindsListener (["child_added"] ++ "value" :: ["once"]) []
        = (childDetached, ["child_added"], some (.remoteError "off" "value"))
      ∧ off Env.offValueFails twoKindsListener
          (some (.set (["child_added"] ++ "value" :: ["once"])))
        = (childDetached, childDetached.rethrow (.remoteError "off" "value") "cancel-event")) :=
  ⟨⟨rfl, by decide, rfl⟩,
    cancelEvents_stops_at_first_failure Env.offValueFails twoKindsListener childDetached
      ["child_added"] ["once"] ["child_added"] "value" 0 rfl (by decide) rfl⟩

theorem onMaybeUpdateClient_ref (env : Env) (l : FirebaseListener) (schema : Schema)
    (change_event : Option String) (value_changed : Bool) :
    (onMaybeUpdateClient env l schema change_event value_changed).1.ref = l.ref := by
  unfold onMaybeUpdateClient
  repeat' split
  all_goals rfl

theorem onMaybeUpdateClient_cancelCalls (env : Env) (l : FirebaseListener) (schema : Schema)
    (change_event : Option String) (value_changed : Bool) :
    (onMaybeUpdateClient env l schema change_event value_changed).1.observer.cancelCalls
      = l.observer.cancelCalls := by
  unfold onMaybeUpdateClient
  repeat' split
  all_goals rfl

theorem cancelLoop_nothing_active (env : Env) : ∀ (events : List String) (l : FirebaseListener)
    (done : List String),
    (∀ e ∈ events, lookupListener l.state.listeners e = none) →
    cancelLoop env l events done = (l, done, none)
  | [], _, _, _ => rfl
  | event :: rest, l, done, h => by
      have hnone := h event (List.mem_cons_self _ _)
      simp only [cancelLoop, hnone]
      exact cancelLoop_nothing_active env rest l done
        (fun e he => h e (List.mem_cons_of_mem _ he))

/-- C14, counterexample.  `cancelledPending` is cancelled and its registry entry
is gone; the path has since been registered for a second instance.  A further
`cancel()` on the first instance returns normally, deletes that entry and calls
the queue's `cancel()` a second time. -/
theorem second_cancel_not_noop :
    cancelledPending.isCancelled = true
    ∧ registryAfterRecreate = [(roomRef.url, 1)]
    ∧ (cancel Env.quiet registryAfterRecreate cancelledPending).2.2 = none
    ∧ (cancel Env.quiet registryAfterRecreate cancelledPending).1 = []
    ∧ cancelledPending.observer.cancelCalls = 1
    ∧ (cancel Env.quiet registryAfterRecreate cancelledPending).2.1.observer.cancelCalls
        = 2 := by
  refine ⟨by decide, by decide, by decide, by decide, by decide, by decide⟩

/-- C14, amended.  On a cancelled instance none of whose requested kinds has an
active listener, a further `cancel()` leaves `state`, the remote reference and
the flag as they are, but it calls the queue's `cancel()` once more and
deletes the registry entry of its url, whichever instance that entry
belongs to; when the queue then reports `isCancelled` nothing is published and
nothing is raised. -/
theorem cancel_again (env : Env) (registry : Registry) (l : FirebaseListener)
    (hcancelled : l.isCancelled = true)
    (hidle : ∀ e ∈ l.state.events.items, lookupListener l.state.listeners e = none) :
    (cancel env registry l).1 = registry.delete l.url
    ∧ (cancel env registry l).2.1.state = l.state
    ∧ (cancel env registry l).2.1.ref = l.ref
    ∧ (cancel env registry l).2.1.isCancelled = true
    ∧ (cancel env registry l).2.1.observer.cancelCalls = l.observer.cancelCalls + 1
    ∧ ((l.observer.isCancelled || env.queueCancelSetsFlag) = true
        → (cancel env registry l).2.1.observer.publishCalls = l.observer.publishCalls
          ∧ (cancel env registry l).2.2 = none) := by
  have hl : ({ l with isCancelled := true } : FirebaseListener) = l := by
    cases l
    simp_all
  have hoff : off env l none = (l, none) := by
    simp [off, cancelEvents, cancelLoop_nothing_active env l.state.events.items l [] hidle]
  have hbody : cancelBody env registry l
      = (if !(l.observer.cancel env).isCancelled then
          (registry.delete l.url,
            (onMaybeUpdateClient env { l with observer := l.observer.cancel env } .empty
              (some "cancelled") false).1,
            (onMaybeUpdateClient env { l with observer := l.observer.cancel env } .empty
              (some "cancelled") false).2)
        else (registry.delete l.url, { l with observer := l.observer.cancel env }, none)) := by
    simp only [cancelBody, hl, hoff]
  by_cases hflag : (l.observer.isCancelled || env.queueCancelSetsFlag) = true
  · have hq : (l.observer.cancel env).isCancelled = true := by
      simpa [PromiseQueue.cancel] using hflag
    have hres : cancel env registry l
        = (registry.delete l.url, { l with observer := l.observer.cancel env }, none) := by
      simp [cancel, hbody, hq]
    rw [hres]
    exact ⟨rfl, rfl, rfl, hcancelled, rfl, fun _ => ⟨rfl, rfl⟩⟩
  · have hq : (l.observer.cancel env).isCancelled = false := by
      simpa [PromiseQueue.cancel] using hflag
    have hstate := onMaybeUpdateClient_state env { l with observer := l.observer.cancel env }
      .empty (some "cancelled") false
    have href := onMaybeUpdateClient_ref env { l with observer := l.observer.cancel env }
      .empty (some "cancelled") false
    have hflagc := onMaybeUpdateClient_isCancelled env { l with observer := l.observer.cancel env }
      .empty (some "cancelled") false
    have hcalls := onMaybeUpdateClient_cancelCalls env
      { l with observer := l.observer.cancel env } .empty (some "cancelled") false
    rcases hm : onMaybeUpdateClient env { l with observer := l.observer.cancel env } .empty
      (some "cancelled") false with ⟨l4, err4⟩
    rw [hm] at hstate href hflagc hcalls
    simp only at hstate href hflagc hcalls
    have hres : (cancel env registry l).1 = registry.delete l.url
        ∧ (cancel env registry l).2.1 = l4 := by
      simp only [cancel, hbody, hq, hm]
      cases err4 <;> simp
    rw [hres.1, hres.2]
    exact ⟨rfl, hstate, href, by rw [hflagc]; exact hcancelled,
      by rw [hcalls]; rfl, fun h => absurd h hflag⟩

/-- Witness for C14: a further `cancel()` on `cancelledPending` with the path
registered for a second instance. -/
theorem cancel_again_witness :
    (cancelledPending.isCancelled = true
      ∧ ∀ e ∈ cancelledPending.state.events.items,
          lookupListener cancelledPending.state.listeners e = none)
    ∧ ((cancel Env.quiet registryAfterRecreate cancelledPending).1
          = Registry.delete registryAfterRecreate cancelledPending.url
      ∧ (cancel Env.quiet registryAfterRecreate cancelledPending).2.1.state
          = cancelledPending.state
      ∧ (cancel Env.quiet registryAfterRecreate cancelledPending).2.1.ref = cancelledPending.ref
      ∧ (cancel Env.quiet registryAfterRecreate cancelledPending).2.1.isCancelled = true
      ∧ (cancel Env.quiet registryAfterRecreate cancelledPending).2.1.observer.cancelCalls
          = cancelledPending.observer.cancelCalls + 1
      ∧ ((cancelledPending.observer.isCancelled || Env.quiet.queueCancelSetsFlag) = true
          → (cancel Env.quiet registryAfterRecreate cancelledPending).2.1.observer.publishCalls
              = cancelledPending.observer.publishCalls
            ∧ (cancel Env.quiet registryAfterRecreate cancelledPending).2.2 = none)) :=
  ⟨⟨by decide, by decide⟩,
    cancel_again Env.quiet registryAfterRecreate cancelledPending (by decide) (by decide)⟩

/-! ## The pull interface -/

theorem runWaiters_delivered_mono (r : PublishCall) : ∀ (ws : List Waiter) (q : NextQueue)
    (d : Nat × PublishCall), d ∈ q.delivered → d ∈ (runWaiters q ws r).delivered
  | [], _, _, h => h
  | w :: ws, q, d, h => by
      apply runWaiters_delivered_mono r ws
      unfold NextQueue.resume
      by_cases hf : w.firstListener = true <;> simp [hf, shiftQueue, h]

theorem runWaiters_delivers (r : PublishCall) : ∀ (ws : List Waiter) (q : NextQueue) (w : Waiter),
    w ∈ ws → (w.caller, r) ∈ (runWaiters q ws r).delivered
  | [], _, _, h => by simp at h
  | v :: ws, q, w, h => by
      rcases List.mem_cons.mp h with hv | hws
      · subst hv
        apply runWaiters_delivered_mono r ws
        unfold NextQueue.resume
        by_cases hf : w.firstListener = true <;> simp [hf, shiftQueue]
      · exact runWaiters_delivers r ws _ w hws

theorem settle_delivers (q : NextQueue) (future : Nat) (r : PublishCall) (w : Waiter)
    (hissued : future < q.issued)
    (hopen : q.settled.find? (fun p => p.1 == future) = none)
    (hw : w ∈ q.waiters) (hfuture : w.future = future) :
    (w.caller, r) ∈ (settle q future r).delivered := by
  have hany : q.settled.any (fun p => p.1 == future) = false := by
    rw [List.find?_eq_none] at hopen
    rw [Bool.eq_false_iff]
    intro h
    obtain ⟨p, hp, hpf⟩ := List.any_eq_true.mp h
    exact hopen p hp hpf
  unfold settle
  simp only [hissued, hany, decide_True, Bool.not_false, Bool.and_self, if_true]
  apply runWaiters_delivers
  simp [List.mem_filter, hw, hfuture]

theorem resolveNext_on_current (q : NextQueue) (current : Nat) (hcur : q.current = some current)
    (hopen : q.settled.find? (fun p => p.1 == current) = none) :
    resolveNext q false
      = ({ q with callers := q.callers + 1
                  waiters := q.waiters ++ [⟨current, false, q.callers⟩] }, q.callers) := by
  simp [resolveNext, hcur, NextQueue.attach, hopen]

theorem resolveNext_first (q : NextQueue) (hnone : q.current = none)
    (hopen : q.settled.find? (fun p => p.1 == q.issued) = none) :
    resolveNext q false
      = ({ q with current := some q.issued, issued := q.issued + 1, callers := q.callers + 1
                  waiters := q.waiters ++ [⟨q.issued, true, q.callers⟩] }, q.callers) := by
  simp [resolveNext, hnone, NextQueue.attach, hopen]

/-- C16. While the future in the `current` slot is outstanding, `next(false)`
requests no future from the queue and leaves both slots as they are; the
promise it returns, like the promise of every caller already waiting on
`current`, resolves with the change `current` resolves with.  Hence two calls
of `next(false)` from empty slots request one future and return two promises
that both resolve with that future's change. -/
theorem next_shares_current (q q0 : NextQueue) (current : Nat)
    (hcur : q.current = some current) (hissued : current < q.issued)
    (hopen : q.settled.find? (fun p => p.1 == current) = none)
    (hnone : q0.current = none)
    (hfresh : q0.settled.find? (fun p => p.1 == q0.issued) = none) :
    ((resolveNext q false).1.issued = q.issued
      ∧ (resolveNext q false).1.current = q.current
      ∧ (resolveNext q false).1.next = q.next
      ∧ (∀ r, ((resolveNext q false).2, r)
            ∈ (settle (resolveNext q false).1 current r).delivered)
      ∧ (∀ r w, w ∈ q.waiters → w.future = current →
            (w.caller, r) ∈ (settle (resolveNext q false).1 current r).delivered))
    ∧ ((resolveNext (resolveNext q0 false).1 false).1.issued = q0.issued + 1
      ∧ (resolveNext q0 false).2 ≠ (resolveNext (resolveNext q0 false).1 false).2
      ∧ (∀ r, ((resolveNext q0 false).2, r)
            ∈ (settle (resolveNext (resolveNext q0 false).1 false).1 q0.issued r).delivered
          ∧ ((resolveNext (resolveNext q0 false).1 false).2, r)
            ∈ (settle (resolveNext (resolveNext q0 false).1 false).1 q0.issued r).delivered)) := by
  constructor
  · rw [resolveNext_on_current q current hcur hopen]
    refine ⟨rfl, rfl, rfl, fun r => ?_, fun r w hw hf => ?_⟩
    · exact settle_delivers _ current r ⟨current, false, q.callers⟩ hissued hopen
        (by simp) rfl
    · exact settle_delivers _ current r w hissued hopen (by simp [hw]) hf
  · have h2 := resolveNext_on_current
      { q0 with current := some q0.issued, issued := q0.issued + 1, callers := q0.callers + 1
                waiters := q0.waiters ++ [⟨q0.issued, true, q0.callers⟩] }
      q0.issued rfl hfresh
    rw [resolveNext_first q0 hnone hfresh]
    simp only at h2 ⊢
    rw [h2]
    refine ⟨rfl, by simp, fun r => ⟨?_, ?_⟩⟩
    · exact settle_delivers _ q0.issued r ⟨q0.issued, true, q0.callers⟩
        (Nat.lt_succ_self _) hfresh (by simp) rfl
    · exact settle_delivers _ q0.issued r ⟨q0.issued, false, q0.callers + 1⟩
        (Nat.lt_succ_self _) hfresh (by simp) rfl

/-- Witness for C16: the slots after one call of `next()`, and the empty
slots. -/
theorem next_shares_current_witness :
    ((resolveNext NextQueue.init false).1.current = some 0
      ∧ 0 < (resolveNext NextQueue.init false).1.issued
      ∧ (resolveNext NextQueue.init false).1.settled.find? (fun p => p.1 == 0) = none
      ∧ NextQueue.init.current = none
      ∧ NextQueue.init.settled.find? (fun p => p.1 == NextQueue.init.issued) = none)
    ∧ (((resolveNext (resolveNext NextQueue.init false).1 false).1.issued
          = (resolveNext NextQueue.init false).1.issued
      ∧ (resolveNext (resolveNext NextQueue.init false).1 false).1.current
          = (resolveNext NextQueue.init false).1.current
      ∧ (resolveNext (resolveNext NextQueue.init false).1 false).1.next
          = (resolveNext NextQueue.init false).1.next
      ∧ (∀ r, ((resolveNext (resolveNext NextQueue.init false).1 false).2, r)
            ∈ (settle (resolveNext (resolveNext NextQueue.init false).1 false).1 0 r).delivered)
      ∧ (∀ r w, w ∈ (resolveNext NextQueue.init false).1.waiters → w.future = 0 →
            (w.caller, r)
              ∈ (settle (resolveNext (resolveNext NextQueue.init false).1 false).1 0
                  r).delivered))
    ∧ ((resolveNext (resolveNext NextQueue.init false).1 false).1.issued
          = NextQueue.init.issued + 1
      ∧ (resolveNext NextQueue.init false).2
          ≠ (resolveNext (resolveNext NextQueue.init false).1 false).2
      ∧ (∀ r, ((resolveNext NextQueue.init false).2, r)
            ∈ (settle (resolveNext (resolveNext NextQueue.init false).1 false).1
                NextQueue.init.issued r).delivered
          ∧ ((resolveNext (resolveNext NextQueue.init false).1 false).2, r)
            ∈ (settle (resolveNext (resolveNext NextQueue.init false).1 false).1
                NextQueue.init.issued r).delivered))) :=
  ⟨⟨by decide, by decide, by decide, by decide, by decide⟩,
    next_shares_current (resolveNext NextQueue.init false).1 NextQueue.init 0
      (by decide) (by decide) (by decide) (by decide) (by decide)⟩

/-- C17, evaluated at the failing input.  After `next()` and `next(true)` the
slots hold the futures 0 and 1.  When future 0 resolves, its first listener
promotes future 1 to `current`.  When future 1 resolves, only the continuation
of the `next(true)` caller runs, and it does not shift: `current` still holds
future 1, now resolved.  A later `next()` requests no future and resolves at
once with `changeB`, the change that was already delivered. -/
theorem promoted_future_never_retired :
    (resolveNext (resolveNext NextQueue.init false).1 true).1.current = some 0
    ∧ (resolveNext (resolveNext NextQueue.init false).1 true).1.next = some 1
    ∧ (settle (resolveNext (resolveNext NextQueue.init false).1 true).1 0 changeA).current
        = some 1
    ∧ promotedSettled.current = some 1
    ∧ promotedSettled.settled = [(0, changeA), (1, changeB)]
    ∧ promotedSettled.waiters = []
    ∧ promotedSettled.delivered = [(0, changeA), (1, changeB)]
    ∧ (resolveNext promotedSettled false).1.issued = promotedSettled.issued
    ∧ (resolveNext promotedSettled false).1.current = some 1
    ∧ (resolveNext promotedSettled false).1.delivered
        = [(0, changeA), (1, changeB), ((resolveNext promotedSettled false).2, changeB)]
    ∧ (resolveNext (resolveNext promotedSettled false).1 false).1.delivered
        = [(0, changeA), (1, changeB), (2, changeB), (3, changeB)] := by
  refine ⟨by decide, by decide, by decide, by decide, by decide, by decide, by decide,
    by decide, by decide, by decide, by decide⟩

/-! ## What the operations preserve -/

theorem keeps_refl (l : FirebaseListener) : Keeps l l := ⟨rfl, rfl, rfl, rfl, rfl, rfl⟩

theorem keeps_trans {a b c : FirebaseListener} (h1 : Keeps a b) (h2 : Keeps b c) : Keeps a c := by
  obtain ⟨h11, h12, h13, h14, h15, h16⟩ := h1
  obtain ⟨h21, h22, h23, h24, h25, h26⟩ := h2
  exact ⟨h21.trans h11, h22.trans h12, h23.trans h13, h24.trans h14, h25.trans h15,
    h26.trans h16⟩

theorem setupListenerOnEvent_keeps (env : Env) (l : FirebaseListener) (_event : String) :
    Keeps l (setupListenerOnEvent env l _event).1 := by
  unfold setupListenerOnEvent
  simp only
  repeat' split
  all_goals exact ⟨rfl, rfl, rfl, rfl, rfl, rfl⟩

theorem setupAll_keeps (env : Env) : ∀ (events : List String) (l : FirebaseListener),
    Keeps l (setupAll env l events).1
  | [], l => keeps_refl l
  | e :: rest, l => by
      have h1 := setupListenerOnEvent_keeps env l e
      unfold setupAll
      rcases hres : setupListenerOnEvent env l e with ⟨l1, err⟩
      rw [hres] at h1
      cases err with
      | some x => exact h1
      | none => exact keeps_trans h1 (setupAll_keeps env rest l1)

theorem listenToInitialEvents_keeps (env : Env) (l : FirebaseListener) (events : List String) :
    Keeps l (listenToInitialEvents env l events).1 := by
  unfold listenToInitialEvents
  repeat' split
  all_goals exact ⟨rfl, rfl, rfl, rfl, rfl, rfl⟩

theorem cancelLoop_keeps (env : Env) : ∀ (events : List String) (l : FirebaseListener)
    (done : List String), Keeps l (cancelLoop env l events done).1
  | [], l, _ => keeps_refl l
  | event :: rest, l, done => by
      unfold cancelLoop
      cases lookupListener l.state.listeners event with
      | none => exact cancelLoop_keeps env rest l done
      | some id =>
          simp only
          cases l.ref.off env event (some id) with
          | error e => exact keeps_refl l
          | ok ref1 =>
              simp only
              cases l.state.events.delete event with
              | error e => exact ⟨rfl, rfl, rfl, rfl, rfl, rfl⟩
              | ok events1 =>
                  exact keeps_trans ⟨rfl, rfl, rfl, rfl, rfl, rfl⟩ (cancelLoop_keeps env rest _ _)

theorem evolves_refl (l : FirebaseListener) : Evolves l l :=
  ⟨rfl, fun h => h, ⟨[], by simp⟩, fun _ _ h => h⟩

theorem evolves_trans {a b c : FirebaseListener} (h1 : Evolves a b) (h2 : Evolves b c) :
    Evolves a c := by
  obtain ⟨hc1, hr1, ⟨x1, hp1⟩, ho1⟩ := h1
  obtain ⟨hc2, hr2, ⟨x2, hp2⟩, ho2⟩ := h2
  refine ⟨hc2.trans hc1, fun h => hr2 (hr1 h), ⟨x1 ++ x2, by rw [hp2, hp1, List.append_assoc]⟩,
    fun hcfg hre honly => ?_⟩
  have hb : b.state.rehydrated = false := by
    cases hbr : b.state.rehydrated with
    | false => rfl
    | true => rw [hr2 hbr] at hre; exact Bool.noConfusion hre
  exact ho2 hcfg hre (ho1 (by rw [← hc2]; exact hcfg) hb honly)

theorem evolves_of_keeps {a b : FirebaseListener} (h : Keeps a b)
    (honly : b.config.rehydrate = true → b.state.rehydrated = false →
      OnlyInitializers a → OnlyInitializers b) : Evolves a b :=
  ⟨h.1, fun hr => by rw [h.2.2.1]; exact hr, ⟨[], by rw [h.2.1]; simp⟩, honly⟩

theorem onMaybeUpdateClient_frame (env : Env) (l : FirebaseListener) (schema : Schema)
    (change_event : Option String) (value_changed : Bool) :
    ∃ extra, (onMaybeUpdateClient env l schema change_event value_changed).1
      = { l with observer := { l.observer with
            publishCalls := l.observer.publishCalls ++ extra } } := by
  unfold onMaybeUpdateClient
  repeat' split
  · exact ⟨[], by simp⟩
  · rename_i copy _ _
    exact ⟨[⟨change_event, copy, schema⟩], rfl⟩
  · rename_i copy _ _
    exact ⟨[⟨change_event, copy, schema⟩], rfl⟩
  · exact ⟨[], by simp⟩

theorem onMaybeUpdateClient_evolves (env : Env) (l : FirebaseListener) (schema : Schema)
    (change_event : Option String) (value_changed : Bool) :
    Evolves l (onMaybeUpdateClient env l schema change_event value_changed).1 := by
  obtain ⟨extra, h⟩ := onMaybeUpdateClient_frame env l schema change_event value_changed
  rw [h]
  exact ⟨rfl, fun hr => hr, ⟨extra, rfl⟩, fun _ _ honly => honly⟩

theorem onSnapshot_frame (env : Env) (l : FirebaseListener) (method event : String)
    (snapshot : Snapshot) :
    ∃ v extra, (onSnapshot env l method event snapshot).1
      = { l with state := { l.state with value := v }
                 observer := { l.observer with
                    publishCalls := l.observer.publishCalls ++ extra } } := by
  unfold onSnapshot
  cases reduce l.state.value event snapshot.key snapshot.val with
  | error e => exact ⟨l.state.value, [], by simp⟩
  | ok r =>
      obtain ⟨extra, h⟩ := onMaybeUpdateClient_frame env
        { l with state := { l.state with value := r.new_value } }
        (.snapshot method event snapshot.key snapshot.val) r.change_event r.value_changed
      exact ⟨r.new_value, extra, h⟩

theorem onSnapshot_evolves (env : Env) (l : FirebaseListener) (method event : String)
    (snapshot : Snapshot) : Evolves l (onSnapshot env l method event snapshot).1 := by
  obtain ⟨v, extra, h⟩ := onSnapshot_frame env l method event snapshot
  rw [h]
  exact ⟨rfl, fun hr => hr, ⟨extra, rfl⟩, fun _ _ honly => honly⟩

theorem cancelLoop_evolves (env : Env) (events : List String) (l : FirebaseListener)
    (done : List String) : Evolves l (cancelLoop env l events done).1 := by
  refine evolves_of_keeps (cancelLoop_keeps env events l done) (fun _ _ honly => ?_)
  rw [cancelLoop_nothing_active env events l done (fun e _ => by simp [honly.1, lookupListener])]
  exact honly

theorem cancelEvents_evolves (env : Env) (l : FirebaseListener) (events : Events) :
    Evolves l (cancelEvents env l events).1 := by
  have hloop := cancelLoop_evolves env events.items l []
  unfold cancelEvents
  rcases hres : cancelLoop env l events.items [] with ⟨l1, done, err⟩
  rw [hres] at hloop
  cases err with
  | some e => exact hloop
  | none =>
      simp only
      split_ifs
      · have hpub := onMaybeUpdateClient_evolves env l1 (.cancelledEvents done) (some "off") false
        rcases hm : onMaybeUpdateClient env l1 (.cancelledEvents done) (some "off") false
          with ⟨l2, err2⟩
        rw [hm] at hpub
        cases err2 <;> exact evolves_trans hloop hpub
      · exact hloop

theorem off_evolves (env : Env) (l : FirebaseListener) (_events : Option Events) :
    Evolves l (off env l _events).1 := cancelEvents_evolves env l _

theorem cancel_evolves (env : Env) (registry : Registry) (l : FirebaseListener) :
    Evolves l (cancel env registry l).2.1 := by
  have h0 : Evolves l { l with isCancelled := true } :=
    ⟨rfl, fun hr => hr, ⟨[], by simp⟩, fun _ _ honly => honly⟩
  have hoff := off_evolves env { l with isCancelled := true } none
  unfold cancel cancelBody
  simp only
  rcases hres : off env { l with isCancelled := true } none with ⟨l2, err⟩
  rw [hres] at hoff
  have h2 : Evolves l l2 := evolves_trans h0 hoff
  cases err with
  | some e => exact h2
  | none =>
      have h3 : Evolves l2 { l2 with observer := l2.observer.cancel env } :=
        ⟨rfl, fun hr => hr, ⟨[], by simp [PromiseQueue.cancel]⟩, fun _ _ honly => honly⟩
      simp only
      split_ifs
      · have hpub := onMaybeUpdateClient_evolves env
          { l2 with observer := l2.observer.cancel env } .empty (some "cancelled") false
        rcases hm : onMaybeUpdateClient env { l2 with observer := l2.observer.cancel env }
          .empty (some "cancelled") false with ⟨l4, err4⟩
        rw [hm] at hpub
        cases err4 <;> exact evolves_trans h2 (evolves_trans h3 hpub)
      · exact evolves_trans h2 h3

theorem setupAll_evolves (env : Env) (events : List String) (l : FirebaseListener)
    (hready : (l.config.rehydrate && !l.state.rehydrated) = false) :
    Evolves l (setupAll env l events).1 := by
  have hk := setupAll_keeps env events l
  refine evolves_of_keeps hk (fun hcfg hre _ => ?_)
  rw [hk.1] at hcfg
  rw [hk.2.2.1] at hre
  simp [hcfg, hre] at hready

theorem listenToInitialEvents_evolves (env : Env) (l : FirebaseListener) (events : List String) :
    Evolves l (listenToInitialEvents env l events).1 := by
  refine evolves_of_keeps (listenToInitialEvents_keeps env l events) (fun _ _ honly => ?_)
  unfold listenToInitialEvents
  cases hsub : l.ref.subscribe env "on" "value" (.initializer events) with
  | error e => exact honly
  | ok p =>
      obtain ⟨ref1, id⟩ := p
      unfold Ref.subscribe at hsub
      split_ifs at hsub
      cases hsub
      refine ⟨honly.1, fun sub hsubmem => ?_⟩
      simp only [List.mem_append, List.mem_singleton] at hsubmem
      rcases hsubmem with hold | hnew
      · exact honly.2 sub hold
      · exact ⟨events, by rw [hnew]⟩

theorem listenToEvents_evolves (env : Env) (l : FirebaseListener) (events : List String) :
    Evolves l (listenToEvents env l events).1 := by
  unfold listenToEvents
  simp only
  by_cases hready : (l.config.rehydrate && !l.state.rehydrated) = true
  · rw [if_pos hready]
    exact listenToInitialEvents_evolves env l events
  · rw [if_neg hready]
    exact setupAll_evolves env events l (by simpa using hready)

theorem listenBody_evolves (env : Env) (l : FirebaseListener) (_events : Option Events) :
    Evolves l (listenBody env l _events).1 := by
  unfold listenBody
  split_ifs
  · exact evolves_refl l
  · simp only
    split
    · exact evolves_refl l
    · rename_i hasOnce _
      refine evolves_trans ?_ (listenToEvents_evolves env _ _)
      exact ⟨rfl, fun hr => hr, ⟨[], by simp⟩, fun _ _ honly => honly⟩

theorem listen_evolves (env : Env) (l : FirebaseListener) (_events : Option Events) :
    Evolves l (listen env l _events).1 := by
  have h := listenBody_evolves env l _events
  unfold listen
  rcases hres : listenBody env l _events with ⟨l1, err⟩
  rw [hres] at h
  cases err <;> exact h

theorem Ref.off_active_subset (env : Env) (r r1 : Ref) (event : String) (id : Option Nat)
    (h : r.off env event id = .ok r1) : ∀ sub ∈ r1.active, sub ∈ r.active := by
  unfold Ref.off at h
  split_ifs at h
  cases h
  intro sub hsub
  exact (List.mem_filter.mp hsub).1

theorem initializerCallback_evolves (env : Env) (l : FirebaseListener) (events : List String)
    (snapshot : Snapshot) : Evolves l (initializerCallback env l events snapshot).1 := by
  unfold initializerCallback
  by_cases hre : l.state.rehydrated = true
  · rw [if_pos hre]
    exact onSnapshot_evolves env l "on" "value" snapshot
  · rw [if_neg hre]
    have hdispatch := onSnapshot_evolves env l "on" "rehydrate" snapshot
    rcases hres : onSnapshot env l "on" "rehydrate" snapshot with ⟨l1, err⟩
    rw [hres] at hdispatch
    cases err with
    | some e => exact hdispatch
    | none =>
        simp only
        -- from here on `rehydrated` is set, and attaching keeps it set
        generalize hl3 : (if events.contains "value" = true then
            ({ l1 with state := { l1.state with rehydrated := true, listeners :=
                match l1.state.initializer with
                | some id => setListener l1.state.listeners "value" id
                | none => deleteListener l1.state.listeners "value" } } : FirebaseListener)
          else { l1 with state := { l1.state with rehydrated := true } }) = l3
        have h3 : l3.config = l1.config ∧ l3.observer = l1.observer
            ∧ l3.state.rehydrated = true := by
          rw [← hl3]
          split_ifs <;> exact ⟨rfl, rfl, rfl⟩
        have hready : (l3.config.rehydrate && !l3.state.rehydrated) = false := by
          simp [h3.2.2]
        have hattach : listenToEvents env l3 events = setupAll env l3 events := by
          simp [listenToEvents, hready]
        have hk := setupAll_keeps env events l3
        have hfinal : ∀ b : FirebaseListener, b.config = l3.config → b.observer = l3.observer →
            b.state.rehydrated = true → Evolves l b := by
          intro b hc ho hr
          refine evolves_trans hdispatch ⟨by rw [hc, h3.1], fun _ => hr,
            ⟨[], by rw [ho, h3.2.1]; simp⟩, fun _ hfalse _ => ?_⟩
          rw [hr] at hfalse
          exact Bool.noConfusion hfalse
        rw [hattach]
        rcases hsetup : setupAll env l3 events with ⟨l4, err4⟩
        rw [hsetup] at hk
        have hr4 : l4.state.rehydrated = true := by rw [hk.2.2.1]; exact h3.2.2
        cases err4 with
        | some e => exact hfinal l4 hk.1 hk.2.1 hr4
        | none =>
            simp only
            split_ifs
            · cases hoff : l4.ref.off env "value" l4.state.initializer with
              | error e => exact hfinal l4 hk.1 hk.2.1 hr4
              | ok ref1 => exact hfinal _ hk.1 hk.2.1 hr4
            · exact hfinal _ hk.1 hk.2.1 hr4

theorem fire_evolves (env : Env) (l : FirebaseListener) (id : Nat) (snapshot : Snapshot) :
    Evolves l (fire env l id snapshot).1 := by
  unfold fire
  cases l.ref.active.find? (fun sub => sub.id == id) with
  | none => exact evolves_refl l
  | some sub =>
      simp only
      have hdrop : Evolves l (if sub.method = "once" then
          { l with ref := { l.ref with active := l.ref.active.filter (fun s => s.id != id) } }
          else l) := by
        split_ifs
        · exact ⟨rfl, fun hr => hr, ⟨[], by simp⟩, fun _ _ honly =>
            ⟨honly.1, fun x hx => honly.2 x (List.mem_filter.mp hx).1⟩⟩
        · exact evolves_refl l
      cases sub.callback with
      | initializer events => exact evolves_trans hdrop (initializerCallback_evolves env _ _ _)
      | onEvent method event => exact evolves_trans hdrop (onSnapshot_evolves env _ _ _ _)

theorem step_evolves (env : Env) (l : FirebaseListener) (op : Op) : Evolves l (step env l op) := by
  cases op with
  | listen e => exact listen_evolves env l e
  | off e => exact off_evolves env l e
  | cancel => exact cancel_evolves env [] l
  | fire id snapshot => exact fire_evolves env l id snapshot

theorem run_evolves (env : Env) : ∀ (ops : List Op) (l : FirebaseListener),
    Evolves l (run env l ops)
  | [], l => evolves_refl l
  | op :: rest, l => by
      have h := run_evolves env rest (step env l op)
      exact evolves_trans (step_evolves env l op) h

theorem initializerCallback_sets_rehydrated (env : Env) (l : FirebaseListener)
    (events : List String) (snapshot : Snapshot)
    (hdone : (onSnapshot env l "on" "rehydrate" snapshot).2 = none) :
    (initializerCallback env l events snapshot).1.state.rehydrated = true := by
  by_cases hre : l.state.rehydrated = true
  · have h := (initializerCallback_evolves env l events snapshot).2.1 hre
    exact h
  · unfold initializerCallback
    rw [if_neg hre]
    rcases hres : onSnapshot env l "on" "rehydrate" snapshot with ⟨l1, err⟩
    rw [hres] at hdone
    simp only at hdone
    subst hdone
    simp only
    generalize hl3 : (if events.contains "value" = true then
        ({ l1 with state := { l1.state with rehydrated := true, listeners :=
            match l1.state.initializer with
            | some id => setListener l1.state.listeners "value" id
            | none => deleteListener l1.state.listeners "value" } } : FirebaseListener)
      else { l1 with state := { l1.state with rehydrated := true } }) = l3
    have h3 : l3.state.rehydrated = true := by
      rw [← hl3]
      split_ifs <;> rfl
    have hattach : listenToEvents env l3 events = setupAll env l3 events := by
      simp [listenToEvents, h3]
    rw [hattach]
    have hk := setupAll_keeps env events l3
    rcases hsetup : setupAll env l3 events with ⟨l4, err4⟩
    rw [hsetup] at hk
    have hr4 : l4.state.rehydrated = true := by rw [hk.2.2.1]; exact h3
    cases err4 with
    | some e => exact hr4
    | none =>
        simp only
        split_ifs
        · cases hoff : l4.ref.off env "value" l4.state.initializer with
          | error e => exact hr4
          | ok ref1 => exact hr4
        · exact hr4

/-- Support for C19: from a new instance configured with `rehydrate = true` on a
reference without subscriptions, after any sequence of `listen`, `off`, `cancel` and
remote firings: while `rehydrated` is false, `listeners` is empty and every
remote subscription is an initializer, so only the rehydrate dispatch can run.
`rehydrated` is never reset by a later sequence; an initializer response whose
rehydrate dispatch returns sets it; once it is set an initializer response is
dispatched as an ordinary `value` notification; so after a rehydrate dispatch
that returned, whatever happens next, no initializer response is dispatched as
`rehydrate` again. -/
theorem rehydration_precedes_listeners (env : Env) (ref : Ref) (config : UserConfig)
    (url : String) (ops more : List Op) (events later : List String)
    (snapshot response : Snapshot)
    (hnew : ref.active = []) (hcfg : (buildConfig config).rehydrate = true) :
    ((run env (FirebaseListener.init ref config url) ops).state.rehydrated = false →
        (run env (FirebaseListener.init ref config url) ops).state.listeners = []
        ∧ ∀ sub ∈ (run env (FirebaseListener.init ref config url) ops).ref.active,
            ∃ captured, sub.callback = .initializer captured)
    ∧ ((run env (FirebaseListener.init ref config url) ops).state.rehydrated = true →
        (run env (run env (FirebaseListener.init ref config url) ops) more).state.rehydrated
          = true)
    ∧ ((onSnapshot env (run env (FirebaseListener.init ref config url) ops) "on" "rehydrate"
          snapshot).2 = none →
        (initializerCallback env (run env (FirebaseListener.init ref config url) ops) events
          snapshot).1.state.rehydrated = true)
    ∧ ((run env (FirebaseListener.init ref config url) ops).state.rehydrated = true →
        initializerCallback env (run env (FirebaseListener.init ref config url) ops) events
            snapshot
          = onSnapshot env (run env (FirebaseListener.init ref config url) ops) "on" "value"
              snapshot)
    ∧ ((onSnapshot env (run env (FirebaseListener.init ref config url) ops) "on" "rehydrate"
          snapshot).2 = none →
        initializerCallback env
            (run env (initializerCallback env (run env (FirebaseListener.init ref config url) ops)
              events snapshot).1 more) later response
          = onSnapshot env
              (run env (initializerCallback env (run env (FirebaseListener.init ref config url) ops)
                events snapshot).1 more) "on" "value" response) := by
  have hrun := run_evolves env ops (FirebaseListener.init ref config url)
  refine ⟨fun hre => ?_, fun hre => ?_, fun hdone => ?_, fun hre => ?_, fun hdone => ?_⟩
  · have hc : (run env (FirebaseListener.init ref config url) ops).config.rehydrate = true := by
      rw [hrun.1]
      exact hcfg
    exact hrun.2.2.2 hc hre ⟨rfl, fun sub hsub => by
      simp [FirebaseListener.init, hnew] at hsub⟩
  · exact (run_evolves env more _).2.1 hre
  · exact initializerCallback_sets_rehydrated env _ events snapshot hdone
  · simp [initializerCallback, hre]
  · have hset := initializerCallback_sets_rehydrated env _ events snapshot hdone
    have hkept := (run_evolves env more _).2.1 hset
    generalize run env (initializerCallback env (run env (FirebaseListener.init ref config url)
      ops) events snapshot).1 more = reached at hkept ⊢
    simp [initializerCallback, hkept]

/-- C19, evaluated at the failing input.  The default instance (`rehydrate =
true`, filter `['changed', 'off', 'cancelled']`) has called
`listen(new Set(['child_added']))`.  The initializer's first response carries
`null` (the path is empty): it is dispatched as `rehydrate`, the filter admits
the change and the clone of the absent cache raises, so the callback is left
before `rehydrated` is set.  The next response, `{a: 1, b: 2}`, is dispatched
as `rehydrate` again.  The same happens when the first response carries the
number `5`, which `Immutable.replace` rejects. -/
theorem rehydrate_path_taken_again :
    pendingListener.config.rehydrate = true
    ∧ pendingListener.config.notifyOn = ["changed", "off", "cancelled"]
    ∧ pendingListener.state.rehydrated = false
    ∧ pendingListener.ref.active = [⟨0, "on", "value", .initializer ["child_added"]⟩]
    ∧ fire Env.quiet pendingListener 0 ⟨"42", .null⟩
        = onSnapshot Env.quiet pendingListener "on" "rehydrate" ⟨"42", .null⟩
    ∧ (fire Env.quiet pendingListener 0 ⟨"42", .null⟩).2 = some absentCacheError
    ∧ (fire Env.quiet pendingListener 0 ⟨"42", .null⟩).1.state.rehydrated = false
    ∧ (fire Env.quiet pendingListener 0 ⟨"42", .null⟩).1.ref.active
        = [⟨0, "on", "value", .initializer ["child_added"]⟩]
    ∧ (run Env.quiet pendingListener
          [.fire 0 ⟨"42", .null⟩, .fire 0 ⟨"42", valueAB12⟩]).observer.publishCalls
        = [⟨some "rehydrated", valueAB12, .snapshot "on" "rehydrate" "42" valueAB12⟩]
    ∧ fire Env.quiet pendingListener 0 ⟨"42", .num 5⟩
        = onSnapshot Env.quiet pendingListener "on" "rehydrate" ⟨"42", .num 5⟩
    ∧ (fire Env.quiet pendingListener 0 ⟨"42", .num 5⟩).2
        = some (.typeError "Immutable#replace can only be invoked with objects or arrays")
    ∧ (fire Env.quiet pendingListener 0 ⟨"42", .num 5⟩).1.state.rehydrated = false
    ∧ (run Env.quiet pendingListener
          [.fire 0 ⟨"42", .num 5⟩, .fire 0 ⟨"42", valueAB12⟩]).observer.publishCalls
        = [⟨some "rehydrated", valueAB12, .snapshot "on" "rehydrate" "42" valueAB12⟩] := by
  refine ⟨by decide, by decide, by decide, by decide, rfl, by decide, by decide, by decide,
    by decide, rfl, by decide, by decide, by decide⟩

/-! ## The first published change -/

theorem mergeEntry_absent (v : JSValue) : mergeEntry none v = some v := by
  cases v <;> simp [mergeEntry]

theorem mergeAssign_some (cur : Fields) : ∀ (other : Fields) (x : Fields),
    ∃ y, mergeAssign cur other (some x) = some y
  | .nil, x => ⟨x, rfl⟩
  | .cons key value rest, x => by
      unfold mergeAssign
      cases mergeEntry (cur.get? key) value with
      | none => exact mergeAssign_some cur rest x
      | some nv => exact mergeAssign_some cur rest _

theorem reduce_rehydrate_object (key k : String) (v : JSValue) (rest : Fields) :
    ∃ fs, reduce .undefined "rehydrate" key (.obj (.cons k v rest))
      = .ok ⟨.obj .nil, .obj fs, some "rehydrated", true⟩ := by
  have hnv := mergeEntry_absent v
  obtain ⟨y, hy⟩ := mergeAssign_some .nil rest (Fields.assign .nil k v)
  refine ⟨y, ?_⟩
  have hmerge : mergeReplace .nil (.cons k v rest) = some y := by
    simp [mergeReplace, clearDroppedKeys, mergeAssign, Fields.get?, hnv, hy]
  simp [reduce, JSValue.truthy, JSValue.typeofObject, JSValue.isArray, JSValue.isNull,
    Immutable.replace, hmerge, Upd.reduction, Except.map]

theorem initializerCallback_observer (env : Env) (l : FirebaseListener)
    (events : List String) (snapshot : Snapshot) (hre : l.state.rehydrated = false) :
    (initializerCallback env l events snapshot).1.observer
      = (onSnapshot env l "on" "rehydrate" snapshot).1.observer := by
  unfold initializerCallback
  simp only [hre, Bool.false_eq_true, if_false]
  rcases hres : onSnapshot env l "on" "rehydrate" snapshot with ⟨l1, err⟩
  cases err with
  | some e => rfl
  | none =>
      simp only
      generalize hl3 : (if events.contains "value" = true then
          ({ l1 with state := { l1.state with rehydrated := true, listeners :=
              match l1.state.initializer with
              | some id => setListener l1.state.listeners "value" id
              | none => deleteListener l1.state.listeners "value" } } : FirebaseListener)
        else { l1 with state := { l1.state with rehydrated := true } }) = l3
      have h3 : l3.state.rehydrated = true ∧ l3.observer = l1.observer := by
        rw [← hl3]
        split_ifs <;> exact ⟨rfl, rfl⟩
      have hattach : listenToEvents env l3 events = setupAll env l3 events := by
        simp [listenToEvents, h3.1]
      rw [hattach]
      have hk := setupAll_keeps env events l3
      rcases hsetup : setupAll env l3 events with ⟨l4, err4⟩
      rw [hsetup] at hk
      have ho4 : l4.observer = l1.observer := by rw [hk.2.1]; exact h3.2
      cases err4 with
      | some e => exact ho4
      | none =>
          simp only
          split_ifs
          · cases hoff : l4.ref.off env "value" l4.state.initializer with
            | error e => exact ho4
            | ok ref1 => exact ho4
          · exact ho4

theorem listenBody_keeps (env : Env) (l : FirebaseListener) (_events : Option Events)
    (hawait : (l.config.rehydrate && !l.state.rehydrated) = true) :
    Keeps l (listenBody env l _events).1 := by
  unfold listenBody
  split_ifs
  · exact keeps_refl l
  · simp only
    split
    · exact keeps_refl l
    · unfold listenToEvents
      simp only [hawait, if_true]
      exact keeps_trans ⟨rfl, rfl, rfl, rfl, rfl, rfl⟩ (listenToInitialEvents_keeps env _ _)

theorem listen_new_instance (env : Env) (ref : Ref) (config : UserConfig) (url : String)
    (requested : List String) (hnew : ref.active = [])
    (hcfg : (buildConfig config).rehydrate = true)
    (hsub : env.subscribeRaises "on" "value" ref.nextId = false) :
    Keeps (FirebaseListener.init ref config url)
      (listen env (FirebaseListener.init ref config url) (some (.set requested))).1
    ∧ ∃ captured,
        (listen env (FirebaseListener.init ref config url) (some (.set requested))).1.ref.active
          = [⟨ref.nextId, "on", "value", .initializer captured⟩] := by
  constructor
  · have h := listenBody_keeps env (FirebaseListener.init ref config url)
      (some (.set requested)) (by simp [FirebaseListener.init, hcfg])
    unfold listen
    rcases hres : listenBody env (FirebaseListener.init ref config url) (some (.set requested))
      with ⟨l1, err⟩
    rw [hres] at h
    cases err <;> exact h
  · refine ⟨(if requested.contains "once" then
        Events.set (requested.filter (fun y => y != "once") ++ ["once"])
        else Events.set requested).items, ?_⟩
    have hbody : (listenBody env (FirebaseListener.init ref config url)
        (some (.set requested))).1.ref.active
        = [⟨ref.nextId, "on", "value", .initializer (if requested.contains "once" then
            Events.set (requested.filter (fun y => y != "once") ++ ["once"])
            else Events.set requested).items⟩] := by
      simp [listenBody, FirebaseListener.init, Events.has, Events.items, listenToEvents, hcfg,
        listenToInitialEvents, Ref.subscribe, hsub, hnew]
    unfold listen
    rcases hres : listenBody env (FirebaseListener.init ref config url) (some (.set requested))
      with ⟨l1, err⟩
    rw [hres] at hbody
    cases err <;> exact hbody

theorem onSnapshot_publishes (env : Env) (l : FirebaseListener) (method event : String)
    (snapshot : Snapshot) (r : Reduction)
    (hred : reduce l.state.value event snapshot.key snapshot.val = .ok r)
    (hfilter : shouldPublish l.config.notifyOn r.change_event r.value_changed = true)
    (copy : JSValue) (hclone : Immutable.asMutable r.new_value = .ok copy)
    (hp : ∀ c, env.publishRaises c = false) :
    (onSnapshot env l method event snapshot).1.observer.publishCalls
      = l.observer.publishCalls
          ++ [⟨r.change_event, copy, .snapshot method event snapshot.key snapshot.val⟩] := by
  simp [onSnapshot, hred, onMaybeUpdateClient, hfilter, hclone, hp, PromiseQueue.publish]

theorem fire_unregistered (env : Env) (l : FirebaseListener) (id : Nat) (snapshot : Snapshot)
    (h : l.ref.active.find? (fun sub => sub.id == id) = none) :
    fire env l id snapshot = (l, none) := by
  simp [fire, h]

theorem run_append (env : Env) (l : FirebaseListener) (a b : List Op) :
    run env l (a ++ b) = run env (run env l a) b := by
  simp [run, List.foldl_append]

theorem run_unregistered (env : Env) (l : FirebaseListener) (sub : RemoteSub)
    (hactive : l.ref.active = [sub]) : ∀ (before : List (Nat × Snapshot)),
    (∀ p ∈ before, p.1 ≠ sub.id) →
    run env l (before.map (fun p => Op.fire p.1 p.2)) = l
  | [], _ => rfl
  | p :: rest, h => by
      have hp : p.1 ≠ sub.id := h p (List.mem_cons_self _ _)
      have hfire : fire env l p.1 p.2 = (l, none) := by
        apply fire_unregistered
        simp [hactive, List.find?, Ne.symm hp]
      have hrest := run_unregistered env l sub hactive rest
        (fun q hq => h q (List.mem_cons_of_mem _ hq))
      simp only [List.map_cons, run, List.foldl_cons, step, hfire]
      exact hrest

theorem first_response_publishes (env : Env) (l : FirebaseListener) (captured : List String)
    (snapshot : Snapshot) (r : Reduction) (id : Nat)
    (hactive : l.ref.active = [⟨id, "on", "value", .initializer captured⟩])
    (hre : l.state.rehydrated = false) (hsilent : l.observer.publishCalls = [])
    (hred : reduce l.state.value "rehydrate" snapshot.key snapshot.val = .ok r)
    (hfilter : shouldPublish l.config.notifyOn r.change_event r.value_changed = true)
    (copy : JSValue) (hclone : Immutable.asMutable r.new_value = .ok copy)
    (hp : ∀ c, env.publishRaises c = false)
    (after : List Op) :
    (run env l (Op.fire id snapshot :: after)).observer.publishCalls.head?
      = some ⟨r.change_event, copy,
          .snapshot "on" "rehydrate" snapshot.key snapshot.val⟩ := by
  have hfire : (fire env l id snapshot).1.observer.publishCalls
      = [⟨r.change_event, copy, .snapshot "on" "rehydrate" snapshot.key snapshot.val⟩] := by
    have hcb : fire env l id snapshot = initializerCallback env l captured snapshot := by
      simp [fire, hactive, List.find?]
    rw [hcb, initializerCallback_observer env l captured snapshot hre,
      onSnapshot_publishes env l "on" "rehydrate" snapshot r hred hfilter copy hclone hp, hsilent]
    rfl
  obtain ⟨extra, hextra⟩ := (run_evolves env after (step env l (.fire id snapshot))).2.2.1
  have hstep : step env l (.fire id snapshot) = (fire env l id snapshot).1 := rfl
  have hrun : run env l (Op.fire id snapshot :: after)
      = run env (step env l (.fire id snapshot)) after := rfl
  rw [hrun, hextra, hstep, hfire]
  rfl

/-- Support for C15: a new instance configured with `rehydrate = true`, whose
filter admits a `rehydrated` change of the cache, calls `listen` with a set of
kinds; publish and the initializer's subscription do not raise.  Firings of
handles that are not registered change nothing.  When the initializer's first
response carries a non-empty object, the first change ever published is
`rehydrated`, whatever operations and notifications follow. -/
theorem first_published_is_rehydrated (env : Env) (ref : Ref) (config : UserConfig)
    (url : String) (requested : List String) (key k : String) (v : JSValue) (rest : Fields)
    (before : List (Nat × Snapshot)) (after : List Op)
    (hp : ∀ c, env.publishRaises c = false)
    (hsub : env.subscribeRaises "on" "value" ref.nextId = false)
    (hnew : ref.active = []) (hcfg : (buildConfig config).rehydrate = true)
    (hfilter : shouldPublish (buildConfig config).notifyOn (some "rehydrated") true = true)
    (hbefore : ∀ p ∈ before, p.1 ≠ ref.nextId) :
    run env (listen env (FirebaseListener.init ref config url) (some (.set requested))).1
        (before.map (fun p => Op.fire p.1 p.2))
      = (listen env (FirebaseListener.init ref config url) (some (.set requested))).1
    ∧ (∃ value schema,
        (run env (listen env (FirebaseListener.init ref config url) (some (.set requested))).1
          (before.map (fun p => Op.fire p.1 p.2)
            ++ Op.fire ref.nextId ⟨key, .obj (.cons k v rest)⟩ :: after)).observer.publishCalls.head?
          = some ⟨some "rehydrated", value, schema⟩) := by
  obtain ⟨hkeeps, captured, hactive⟩ := listen_new_instance env ref config url requested hnew hcfg hsub
  generalize (listen env (FirebaseListener.init ref config url) (some (.set requested))).1 = l
    at hkeeps hactive ⊢
  have hre : l.state.rehydrated = false := by rw [hkeeps.2.2.1]; rfl
  have hsilent : l.observer.publishCalls = [] := by rw [hkeeps.2.1]; rfl
  have hvalue : l.state.value = .undefined := by rw [hkeeps.2.2.2.1]; rfl
  have hnotify : shouldPublish l.config.notifyOn (some "rehydrated") true = true := by
    rw [hkeeps.1]; exact hfilter
  have hquiet := run_unregistered env l _ hactive before hbefore
  refine ⟨hquiet, ?_⟩
  obtain ⟨fs, hfs⟩ := reduce_rehydrate_object key k v rest
  rw [run_append, hquiet]
  exact ⟨_, _, first_response_publishes env l captured ⟨key, .obj (.cons k v rest)⟩
    ⟨.obj .nil, .obj fs, some "rehydrated", true⟩ ref.nextId
    hactive hre hsilent (by rw [hvalue]; exact hfs) hnotify (.obj fs) rfl hp after⟩

/-- C15, evaluated at the failing input.  The instance has `rehydrate = true`,
the filter `['changed', 'added']` and the requested kinds `child_changed` and
`child_added`; the path holds the list `[1]`.  For the first full-value
snapshot the reducer prepares an empty array, and `Immutable.replace`, which
takes an array argument as a list of patches, returns it as it is: the cache
becomes `[]`, `value_changed` is false and nothing is published, yet
`rehydrated` is set and the per-kind listeners are attached.  The first change
ever published is the `added` of child `0`.  With the object `{a: 1, b: 2}` as
first response the first change published is `rehydrated`. -/
theorem first_published_added_on_array :
    changedAddedListener.config.rehydrate = true
    ∧ changedAddedListener.config.notifyOn = ["changed", "added"]
    ∧ changedAddedListener.state.events = .set ["child_changed", "child_added"]
    ∧ changedAddedListener.observer.publishCalls = []
    ∧ reduce .undefined "rehydrate" "42" arrayOne
        = .ok ⟨.arr .nil, .arr .nil, some "rehydrated", false⟩
    ∧ (fire Env.quiet changedAddedListener 0 ⟨"42", arrayOne⟩).2 = none
    ∧ (fire Env.quiet changedAddedListener 0 ⟨"42", arrayOne⟩).1.state.rehydrated = true
    ∧ (fire Env.quiet changedAddedListener 0 ⟨"42", arrayOne⟩).1.state.value = .arr .nil
    ∧ (fire Env.quiet changedAddedListener 0 ⟨"42", arrayOne⟩).1.observer.publishCalls = []
    ∧ (fire Env.quiet changedAddedListener 0 ⟨"42", arrayOne⟩).1.state.listeners
        = [("child_changed", 1), ("child_added", 2)]
    ∧ (run Env.quiet changedAddedListener
          [.fire 0 ⟨"42", arrayOne⟩, .fire 2 ⟨"0", .num 1⟩]).observer.publishCalls
        = [⟨some "added", arrayOne, .snapshot "on" "child_added" "0" (.num 1)⟩]
    ∧ (run Env.quiet changedAddedListener
          [.fire 0 ⟨"42", valueAB12⟩, .fire 2 ⟨"c", .num 3⟩]).observer.publishCalls.map
          (fun c => c.change_event) = [some "rehydrated", some "added"] := by
  refine ⟨by decide, by decide, by decide, by decide, rfl, by decide, by decide, by decide,
    by decide, by decide, by decide, by decide⟩

/-! ## The initializer's first response -/

theorem lookupListener_append (xs ys : List (String × Nat)) (k : String) :
    lookupListener (xs ++ ys) k
      = (match lookupListener xs k with
          | some id => some id
          | none => lookupListener ys k) := by
  unfold lookupListener
  rw [List.find?_append]
  cases xs.find? (fun p => p.1 == k) <;> rfl

theorem deleteListener_cons_eq (p : String × Nat) (rest : List (String × Nat)) (e : String)
    (h : p.1 = e) : deleteListener (p :: rest) e = deleteListener rest e := by
  simp [deleteListener, List.filter_cons, h]

theorem deleteListener_cons_ne (p : String × Nat) (rest : List (String × Nat)) (e : String)
    (h : p.1 ≠ e) : deleteListener (p :: rest) e = p :: deleteListener rest e := by
  simp [deleteListener, List.filter_cons, h]

theorem lookupListener_cons_eq (p : String × Nat) (rest : List (String × Nat)) (k : String)
    (h : p.1 = k) : lookupListener (p :: rest) k = some p.2 := by
  simp [lookupListener, List.find?_cons, h]

theorem lookupListener_cons_ne (p : String × Nat) (rest : List (String × Nat)) (k : String)
    (h : p.1 ≠ k) : lookupListener (p :: rest) k = lookupListener rest k := by
  simp [lookupListener, List.find?_cons, h]

theorem lookupListener_deleteListener_self : ∀ (ls : List (String × Nat)) (k : String),
    lookupListener (deleteListener ls k) k = none
  | [], _ => rfl
  | p :: rest, k => by
      have ih := lookupListener_deleteListener_self rest k
      by_cases hp : p.1 = k
      · rw [deleteListener_cons_eq p rest k hp]
        exact ih
      · rw [deleteListener_cons_ne p rest k hp, lookupListener_cons_ne p _ k hp]
        exact ih

theorem lookupListener_deleteListener_ne : ∀ (ls : List (String × Nat)) (e k : String),
    k ≠ e → lookupListener (deleteListener ls e) k = lookupListener ls k
  | [], _, _, _ => rfl
  | p :: rest, e, k, h => by
      have ih := lookupListener_deleteListener_ne rest e k h
      by_cases hp : p.1 = e
      · have hpk : p.1 ≠ k := fun hpk => h (hpk.symm.trans hp)
        rw [deleteListener_cons_eq p rest e hp, lookupListener_cons_ne p rest k hpk]
        exact ih
      · rw [deleteListener_cons_ne p rest e hp]
        by_cases hpk : p.1 = k
        · rw [lookupListener_cons_eq p _ k hpk, lookupListener_cons_eq p _ k hpk]
        · rw [lookupListener_cons_ne p _ k hpk, lookupListener_cons_ne p _ k hpk]
          exact ih

theorem lookupListener_setListener_self (ls : List (String × Nat)) (e : String) (id : Nat) :
    lookupListener (setListener ls e id) e = some id := by
  unfold setListener
  rw [lookupListener_append, lookupListener_deleteListener_self]
  exact lookupListener_cons_eq (e, id) [] e rfl

theorem lookupListener_setListener_ne (ls : List (String × Nat)) (e k : String) (id : Nat)
    (h : k ≠ e) : lookupListener (setListener ls e id) k = lookupListener ls k := by
  unfold setListener
  rw [lookupListener_append, lookupListener_deleteListener_ne ls e k h]
  cases lookupListener ls k with
  | some x => rfl
  | none => exact lookupListener_cons_ne (e, id) [] k (Ne.symm h)

theorem setupListenerOnEvent_once (env : Env) (l : FirebaseListener) (ys : List String)
    (hsub : ∀ m e n, env.subscribeRaises m e n = false) (hev : l.state.events = .set ys) :
    setupListenerOnEvent env l "once"
      = (match lookupListener l.state.listeners "value" with
          | some _ =>
              ({ l with state := { l.state with
                  events := .set (ys.filter (fun y => y != "once")) } }, none)
          | none =>
              ({ l with
                  ref := { l.ref with
                    nextId := l.ref.nextId + 1
                    active := l.ref.active
                      ++ [⟨l.ref.nextId, "once", "value", .onEvent "once" "value"⟩]
                    calls := l.ref.calls ++ [.subscribe "once" "value" l.ref.nextId] }
                  state := { l.state with
                    events := .set (ys.filter (fun y => y != "once")) } }, none)) := by
  unfold setupListenerOnEvent
  simp only [if_true, hev, Events.delete]
  cases lookupListener l.state.listeners "value" with
  | some id => rfl
  | none => simp [Ref.subscribe, hsub]

theorem setupListenerOnEvent_kind (env : Env) (l : FirebaseListener) (ys : List String)
    (e : String) (hne : e ≠ "once")
    (hsub : ∀ m e n, env.subscribeRaises m e n = false) (hev : l.state.events = .set ys) :
    setupListenerOnEvent env l e
      = (match lookupListener l.state.listeners e with
          | some _ => (l, none)
          | none =>
              ({ l with
                  ref := { l.ref with
                    nextId := l.ref.nextId + 1
                    active := l.ref.active ++ [⟨l.ref.nextId, "on", e, .onEvent "on" e⟩]
                    calls := l.ref.calls ++ [.subscribe "on" e l.ref.nextId] }
                  state := { l.state with
                    listeners := setListener l.state.listeners e l.ref.nextId
                    events := .set (if ys.contains e then ys else ys ++ [e]) } }, none)) := by
  unfold setupListenerOnEvent
  simp only [hne, if_false]
  cases hl : lookupListener l.state.listeners e with
  | some id => rfl
  | none =>
      simp only [Ref.subscribe, hsub, Bool.false_eq_true, if_false, hev, Events.has, Events.add]
      by_cases hc : e ∈ ys
      · simp [hc, hev]
      · simp [hc]

theorem setupListenerOnEvent_spec (env : Env) (n : Nat) (l : FirebaseListener) (e : String)
    (hsub : ∀ m e n, env.subscribeRaises m e n = false) (hwell : WellAttached n l) :
    (setupListenerOnEvent env l e).2 = none
    ∧ WellAttached n (setupListenerOnEvent env l e).1
    ∧ (e ≠ "once" → lookupListener (setupListenerOnEvent env l e).1.state.listeners e ≠ none)
    ∧ (∀ k id, lookupListener l.state.listeners k = some id →
        lookupListener (setupListenerOnEvent env l e).1.state.listeners k = some id)
    ∧ (∀ k, lookupListener l.state.listeners k = none → (k ≠ e ∨ e = "once") →
        lookupListener (setupListenerOnEvent env l e).1.state.listeners k = none)
    ∧ (lookupListener l.state.listeners "value" ≠ none →
        valueSubscriptions (setupListenerOnEvent env l e).1.ref.calls
          = valueSubscriptions l.ref.calls)
    ∧ (setupListenerOnEvent env l e).1.state.initializer = l.state.initializer := by
  obtain ⟨⟨ys, hev⟩, hn, hid, hfilter⟩ := hwell
  by_cases honce : e = "once"
  · subst honce
    rw [setupListenerOnEvent_once env l ys hsub hev]
    cases hv : lookupListener l.state.listeners "value" with
    | some id =>
        exact ⟨rfl, ⟨⟨_, rfl⟩, hn, hid, hfilter⟩, fun h => absurd rfl h, fun k i hk => hk,
          fun k hk _ => hk, fun _ => rfl, rfl⟩
    | none =>
        refine ⟨rfl, ⟨⟨_, rfl⟩, Nat.lt_succ_of_lt hn, ?_, ?_⟩, fun h => absurd rfl h,
          fun k i hk => hk, fun k hk _ => hk, fun h => absurd rfl h, rfl⟩
        · intro sub hsubmem hsubid
          simp only [List.mem_append, List.mem_singleton] at hsubmem
          rcases hsubmem with hold | hnewsub
          · exact hid sub hold hsubid
          · rw [hnewsub]
        · intro k hk
          have hkv : ("value" == k) = false := by simp [Ne.symm hk]
          simp only [List.filter_append, List.filter_cons, hkv, List.filter_nil,
            List.append_nil, Bool.false_eq_true, if_false]
          exact hfilter k hk
  · rw [setupListenerOnEvent_kind env l ys e honce hsub hev]
    cases hl : lookupListener l.state.listeners e with
    | some id =>
        refine ⟨rfl, ⟨⟨ys, hev⟩, hn, hid, hfilter⟩, fun _ => by simp [hl], fun k i hk => hk,
          fun k hk _ => hk, fun _ => rfl, rfl⟩
    | none =>
        refine ⟨rfl, ⟨⟨_, rfl⟩, Nat.lt_succ_of_lt hn, ?_, ?_⟩, fun _ => ?_, fun k i hk => ?_,
          fun k hk hke => ?_, fun hvalue => ?_, rfl⟩
        · intro sub hsubmem hsubid
          simp only [List.mem_append, List.mem_singleton] at hsubmem
          rcases hsubmem with hold | hnewsub
          · exact hid sub hold hsubid
          · rw [hnewsub] at hsubid
            simp only at hsubid
            exact absurd hsubid (Nat.ne_of_gt hn)
        · intro k hk
          by_cases hke : k = e
          · subst hke
            have hself : (k == k) = true := by simp
            simp only [List.filter_append, List.filter_cons, hself, if_true, List.filter_nil,
              lookupListener_setListener_self]
            rw [hfilter k hk, hl]
            rfl
          · have hek : (e == k) = false := by simp [Ne.symm hke]
            simp only [List.filter_append, List.filter_cons, hek, List.filter_nil,
              List.append_nil, Bool.false_eq_true, if_false,
              lookupListener_setListener_ne _ e k _ hke]
            exact hfilter k hk
        · simp [lookupListener_setListener_self]
        · have hke : k ≠ e := by
            intro h
            rw [h, hl] at hk
            exact Option.noConfusion hk
          simp only [lookupListener_setListener_ne _ e k _ hke]
          exact hk
        · rcases hke with hke | hke
          · simp only [lookupListener_setListener_ne _ e k _ hke]
            exact hk
          · exact absurd hke honce
        · have hev2 : e ≠ "value" := by
            intro h
            rw [h] at hl
            exact hvalue hl
          simp [valueSubscriptions, List.filter_append, List.filter_cons, hev2]

theorem setupAll_spec (env : Env) (n : Nat)
    (hsub : ∀ m e n, env.subscribeRaises m e n = false) :
    ∀ (events : List String) (l : FirebaseListener), WellAttached n l →
    (setupAll env l events).2 = none
    ∧ WellAttached n (setupAll env l events).1
    ∧ (∀ k ∈ events, k ≠ "once" →
        lookupListener (setupAll env l events).1.state.listeners k ≠ none)
    ∧ (∀ k id, lookupListener l.state.listeners k = some id →
        lookupListener (setupAll env l events).1.state.listeners k = some id)
    ∧ (∀ k, lookupListener l.state.listeners k = none → k ∉ events →
        lookupListener (setupAll env l events).1.state.listeners k = none)
    ∧ (lookupListener l.state.listeners "value" ≠ none →
        valueSubscriptions (setupAll env l events).1.ref.calls
          = valueSubscriptions l.ref.calls)
    ∧ (setupAll env l events).1.state.initializer = l.state.initializer
  | [], l, hwell =>
      ⟨rfl, hwell, fun k hk => by simp at hk, fun _ _ h => h, fun _ h _ => h, fun _ => rfl, rfl⟩
  | e :: rest, l, hwell => by
      obtain ⟨herr, hwell1, hset, hkept, hnone, hvalue, hinit⟩ :=
        setupListenerOnEvent_spec env n l e hsub hwell
      rcases hres : setupListenerOnEvent env l e with ⟨l1, err⟩
      rw [hres] at herr hwell1 hset hkept hnone hvalue hinit
      simp only at herr hwell1 hset hkept hnone hvalue hinit
      subst herr
      obtain ⟨herr2, hwell2, hset2, hkept2, hnone2, hvalue2, hinit2⟩ :=
        setupAll_spec env n hsub rest l1 hwell1
      have hunfold : setupAll env l (e :: rest) = setupAll env l1 rest := by
        simp [setupAll, hres]
      rw [hunfold]
      refine ⟨herr2, hwell2, fun k hk hko => ?_, fun k id hk => hkept2 k id (hkept k id hk),
        fun k hk hkn => ?_, fun hv => ?_, hinit2.trans hinit⟩
      · rcases List.mem_cons.mp hk with hke | hkr
        · subst hke
          cases hl1 : lookupListener l1.state.listeners k with
          | none => exact absurd hl1 (hset hko)
          | some id => rw [hkept2 k id hl1]; exact Option.some_ne_none id
        · exact hset2 k hkr hko
      · have hke : k ≠ e := fun h => hkn (by rw [h]; exact List.mem_cons_self _ _)
        have hkr : k ∉ rest := fun h => hkn (List.mem_cons_of_mem _ h)
        exact hnone2 k (hnone k hk (Or.inl hke)) hkr
      · have hv1 : lookupListener l1.state.listeners "value" ≠ none := by
          cases hl : lookupListener l.state.listeners "value" with
          | none => exact absurd hl hv
          | some id => rw [hkept "value" id hl]; exact Option.some_ne_none id
        rw [hvalue2 hv1, hvalue hv]

theorem initializerCallback_first (env : Env) (n : Nat) (l : FirebaseListener)
    (captured : List String) (snapshot : Snapshot)
    (hsub : ∀ m e n, env.subscribeRaises m e n = false)
    (hoff : ∀ e id, env.offRaises e id = false)
    (hre : l.state.rehydrated = false) (hls : l.state.listeners = [])
    (hinit : l.state.initializer = some n)
    (hactive : l.ref.active = [⟨n, "on", "value", .initializer captured⟩])
    (hnext : n < l.ref.nextId) (hev : ∃ ys, l.state.events = .set ys)
    (hdone : (onSnapshot env l "on" "rehydrate" snapshot).2 = none) :
    ("value" ∈ captured →
        lookupListener (initializerCallback env l captured snapshot).1.state.listeners "value"
          = some n
        ∧ valueSubscriptions (initializerCallback env l captured snapshot).1.ref.calls
          = valueSubscriptions l.ref.calls)
    ∧ ("value" ∉ captured →
        (∀ sub ∈ (initializerCallback env l captured snapshot).1.ref.active, sub.id ≠ n)
        ∧ RemoteCall.off "value" (some n)
            ∈ (initializerCallback env l captured snapshot).1.ref.calls
        ∧ lookupListener (initializerCallback env l captured snapshot).1.state.listeners "value"
            = none)
    ∧ (∀ k ∈ captured, k ≠ "once" → k ≠ "value" →
        ∃ id, lookupListener (initializerCallback env l captured snapshot).1.state.listeners k
            = some id
          ∧ (initializerCallback env l captured snapshot).1.ref.active.filter
              (fun sub => sub.event == k) = [⟨id, "on", k, .onEvent "on" k⟩]) := by
  obtain ⟨v, extra, hframe⟩ := onSnapshot_frame env l "on" "rehydrate" snapshot
  rcases hres : onSnapshot env l "on" "rehydrate" snapshot with ⟨la, err⟩
  rw [hres] at hdone hframe
  simp only at hdone hframe
  subst hdone
  subst hframe
  obtain ⟨ys, hys⟩ := hev
  unfold initializerCallback
  simp only [hre, Bool.false_eq_true, if_false, hres, hinit, hls]
  by_cases hv : "value" ∈ captured
  · have hc : captured.contains "value" = true := by simpa using hv
    simp only [hc, if_true, Bool.not_true, Bool.false_eq_true, if_false]
    generalize hl3 : ({ l with
        state := { rehydrated := true, initializer := some n,
                   listeners := setListener [] "value" n, events := l.state.events, value := v }
        observer := { l.observer with publishCalls := l.observer.publishCalls ++ extra } }
        : FirebaseListener) = l3
    have hw3 : WellAttached n l3 := by
      rw [← hl3]
      refine ⟨⟨ys, hys⟩, hnext, fun sub hs _ => ?_, fun k hk => ?_⟩
      · simp only [hactive, List.mem_singleton] at hs
        rw [hs]
      · have hkv : ("value" == k) = false := by simp [Ne.symm hk]
        simp only [hactive, List.filter_cons, hkv, List.filter_nil, Bool.false_eq_true, if_false,
          lookupListener_setListener_ne [] "value" k n hk]
        rfl
    have hattach : listenToEvents env l3 captured = setupAll env l3 captured := by
      rw [← hl3]
      simp [listenToEvents]
    obtain ⟨herr, hwell, hset, hkept, _, hvalue, _⟩ := setupAll_spec env n hsub captured l3 hw3
    rw [hattach]
    rcases hsetup : setupAll env l3 captured with ⟨l4, err4⟩
    rw [hsetup] at herr hwell hset hkept hvalue
    simp only at herr hwell hset hkept hvalue
    subst herr
    simp only
    have hl3value : lookupListener l3.state.listeners "value" = some n := by
      rw [← hl3]
      exact lookupListener_setListener_self [] "value" n
    have hl3calls : l3.ref.calls = l.ref.calls := by rw [← hl3]
    refine ⟨fun _ => ⟨hkept "value" n hl3value, ?_⟩, fun hnot => absurd hv hnot,
      fun k hk hko hkv => ?_⟩
    · rw [hvalue (by rw [hl3value]; exact Option.some_ne_none n), hl3calls]
    · cases hl4 : lookupListener l4.state.listeners k with
      | none => exact absurd hl4 (hset k hk hko)
      | some id =>
          refine ⟨id, rfl, ?_⟩
          have h := hwell.2.2.2 k hkv
          rw [hl4] at h
          exact h
  · have hc : captured.contains "value" = false := by simpa using hv
    simp only [hc, Bool.false_eq_true, if_false, Bool.not_false, if_true]
    generalize hl3 : ({ l with
        state := { rehydrated := true, initializer := some n,
                   listeners := [], events := l.state.events, value := v }
        observer := { l.observer with publishCalls := l.observer.publishCalls ++ extra } }
        : FirebaseListener) = l3
    have hw3 : WellAttached n l3 := by
      rw [← hl3]
      refine ⟨⟨ys, hys⟩, hnext, fun sub hs _ => ?_, fun k hk => ?_⟩
      · simp only [hactive, List.mem_singleton] at hs
        rw [hs]
      · have hkv : ("value" == k) = false := by simp [Ne.symm hk]
        simp only [hactive, List.filter_cons, hkv, List.filter_nil, Bool.false_eq_true, if_false]
        rfl
    have hattach : listenToEvents env l3 captured = setupAll env l3 captured := by
      rw [← hl3]
      simp [listenToEvents]
    obtain ⟨herr, hwell, hset, _, hnone, _, hinit4⟩ := setupAll_spec env n hsub captured l3 hw3
    rw [hattach]
    rcases hsetup : setupAll env l3 captured with ⟨l4, err4⟩
    rw [hsetup] at herr hwell hset hnone hinit4
    simp only at herr hwell hset hnone hinit4
    subst herr
    have hi4 : l4.state.initializer = some n := by rw [hinit4, ← hl3]
    have hv4 : lookupListener l4.state.listeners "value" = none :=
      hnone "value" (by rw [← hl3]; rfl) hv
    simp only [hi4, Ref.off, hoff, Bool.false_eq_true, if_false]
    refine ⟨fun hin => absurd hin hv, fun _ => ⟨fun sub hs => ?_, by simp, hv4⟩,
      fun k hk hko hkv => ?_⟩
    · intro hid
      have hmem := List.mem_filter.mp hs
      have hevent := hwell.2.2.1 sub hmem.1 hid
      simp [hevent, hid] at hmem
    · cases hl4 : lookupListener l4.state.listeners k with
      | none => exact absurd hl4 (hset k hk hko)
      | some id =>
          refine ⟨id, rfl, ?_⟩
          have h := hwell.2.2.2 k hkv
          rw [hl4] at h
          have h' : l4.ref.active.filter (fun sub => sub.event == k)
              = [⟨id, "on", k, .onEvent "on" k⟩] := h
          rw [← h', List.filter_filter]
          apply List.filter_congr
          intro sub _
          by_cases hsk : sub.event = k
          · have hsv : sub.event ≠ "value" := by rw [hsk]; exact hkv
            simp [hsk, hkv]
          · simp [hsk]

theorem onceLast_mem (requested : List String) (k : String) :
    k ∈ (onceLast requested).items ↔ k ∈ requested := by
  unfold onceLast
  by_cases h : requested.contains "once" = true
  · have hmem : "once" ∈ requested := by simpa using h
    simp only [h, if_true, Events.items, List.mem_append, List.mem_filter, List.mem_singleton]
    constructor
    · rintro (⟨hk, _⟩ | hk)
      · exact hk
      · rw [hk]; exact hmem
    · intro hk
      by_cases hko : k = "once"
      · exact Or.inr hko
      · exact Or.inl ⟨hk, by simpa using hko⟩
  · have h2 : "once" ∉ requested := by simpa using h
    simp [h2, Events.items]

theorem listening_eq (env : Env) (ref : Ref) (config : UserConfig) (url : String)
    (requested : List String) (hcfg : (buildConfig config).rehydrate = true)
    (hsub : ∀ m e n, env.subscribeRaises m e n = false) :
    listening env ref config url requested
      = { FirebaseListener.init ref config url with
          ref := { ref with
            nextId := ref.nextId + 1
            active := ref.active
              ++ [⟨ref.nextId, "on", "value", .initializer (onceLast requested).items⟩]
            calls := ref.calls ++ [.subscribe "on" "value" ref.nextId] }
          state := { (FirebaseListener.init ref config url).state with
            events := onceLast requested
            initializer := some ref.nextId } } := by
  unfold listening onceLast
  by_cases h : requested.contains "once" = true
  · simp [listen, listenBody, FirebaseListener.init, Events.has, Events.items, listenToEvents,
      hcfg, listenToInitialEvents, Ref.subscribe, hsub, h]
  · simp [listen, listenBody, FirebaseListener.init, Events.has, Events.items, listenToEvents,
      hcfg, listenToInitialEvents, Ref.subscribe, hsub, h]

/-- Support for C20: a new instance with `rehydrate = true` on a reference without
subscriptions, one call `listen(new Set(requested))`, then the initializer's
first response, whose rehydrate dispatch returns; no `ref.on`, `ref.once` or
`ref.off` raises.  If `requested` has `value`, the initializer's handle is the
`value` entry of `state.listeners` and the only `ref.on('value')` or
`ref.once('value')` call ever made is the initializer's (also when `requested`
has `once`).  If `requested` has no `value`, the initializer is no longer
subscribed, `ref.off('value', handle)` has been called and `state.listeners` has
no `value` entry.  In both cases every other kind of `requested` except `once`
has an entry in `state.listeners` and exactly one remote subscription, the one
recorded in that entry. -/
theorem first_response_attaches (env : Env) (ref : Ref) (config : UserConfig) (url : String)
    (requested : List String) (snapshot : Snapshot)
    (hsub : ∀ m e n, env.subscribeRaises m e n = false)
    (hoff : ∀ e id, env.offRaises e id = false)
    (hnew : ref.active = []) (hcalls : ref.calls = [])
    (hcfg : (buildConfig config).rehydrate = true)
    (hdone : (onSnapshot env (listening env ref config url requested) "on" "rehydrate"
      snapshot).2 = none) :
    ("value" ∈ requested →
        lookupListener (afterFirstResponse env ref config url requested snapshot).state.listeners
            "value" = some ref.nextId
        ∧ valueSubscriptions (afterFirstResponse env ref config url requested snapshot).ref.calls
            = [.subscribe "on" "value" ref.nextId])
    ∧ ("value" ∉ requested →
        (∀ sub ∈ (afterFirstResponse env ref config url requested snapshot).ref.active,
            sub.id ≠ ref.nextId)
        ∧ RemoteCall.off "value" (some ref.nextId)
            ∈ (afterFirstResponse env ref config url requested snapshot).ref.calls
        ∧ lookupListener (afterFirstResponse env ref config url requested snapshot).state.listeners
            "value" = none)
    ∧ (∀ k ∈ requested, k ≠ "once" → k ≠ "value" →
        ∃ id, lookupListener
              (afterFirstResponse env ref config url requested snapshot).state.listeners k = some id
          ∧ (afterFirstResponse env ref config url requested snapshot).ref.active.filter
              (fun sub => sub.event == k) = [⟨id, "on", k, .onEvent "on" k⟩]) := by
  have hl := listening_eq env ref config url requested hcfg hsub
  have hactive : (listening env ref config url requested).ref.active
      = [⟨ref.nextId, "on", "value", .initializer (onceLast requested).items⟩] := by
    rw [hl]; simp [hnew]
  have hcalls1 : (listening env ref config url requested).ref.calls
      = [.subscribe "on" "value" ref.nextId] := by
    rw [hl]; simp [hcalls]
  have hnext : ref.nextId < (listening env ref config url requested).ref.nextId := by
    rw [hl]; simp
  have hre : (listening env ref config url requested).state.rehydrated = false := by
    rw [hl]; rfl
  have hls : (listening env ref config url requested).state.listeners = [] := by
    rw [hl]; rfl
  have hinit : (listening env ref config url requested).state.initializer = some ref.nextId := by
    rw [hl]
  have hev : ∃ ys, (listening env ref config url requested).state.events = .set ys := by
    rw [hl]
    show ∃ ys, onceLast requested = .set ys
    unfold onceLast
    split
    · exact ⟨_, rfl⟩
    · exact ⟨_, rfl⟩
  have hfire : afterFirstResponse env ref config url requested snapshot
      = (initializerCallback env (listening env ref config url requested)
          (onceLast requested).items snapshot).1 := by
    unfold afterFirstResponse
    simp [fire, hactive, List.find?]
  obtain ⟨h1, h2, h3⟩ := initializerCallback_first env ref.nextId
    (listening env ref config url requested) (onceLast requested).items snapshot
    hsub hoff hre hls hinit hactive hnext hev hdone
  rw [hfire]
  refine ⟨?_, ?_, ?_⟩
  · intro hv
    obtain ⟨ha, hb⟩ := h1 ((onceLast_mem requested "value").2 hv)
    refine ⟨ha, ?_⟩
    rw [hb, hcalls1]
    rfl
  · intro hv
    exact h2 (fun hc => hv ((onceLast_mem requested "value").1 hc))
  · intro k hk hko hkv
    exact h3 k ((onceLast_mem requested k).2 hk) hko hkv

/-- C20, evaluated at the failing input.  The default instance on `/rooms/42`
calls `listen(new Set(['value', 'child_added']))` once and the initializer's
first response carries `null` (the path is empty).  The callback raises in the
rehydrate dispatch, before the lines that transfer the handle and attach the
listeners: `listeners` has no entry for `value` nor for `child_added`, and the
only remote subscription is the initializer.  After
`listen(new Set(['child_added']))` the initializer is not unsubscribed either.
The same happens when the first response carries the number `5`.  With the
response `{a: 1, b: 2}` the handle is stored and `child_added` is attached. -/
theorem first_response_raising_attaches_nothing :
    (buildConfig UserConfig.defaults).rehydrate = true
    ∧ roomRef.active = [] ∧ roomRef.calls = []
    ∧ (fire Env.quiet
          (listening Env.quiet roomRef UserConfig.defaults roomRef.url ["value", "child_added"])
          roomRef.nextId ⟨"42", .null⟩).2 = some absentCacheError
    ∧ (afterFirstResponse Env.quiet roomRef UserConfig.defaults roomRef.url
          ["value", "child_added"] ⟨"42", .null⟩).state.listeners = []
    ∧ (afterFirstResponse Env.quiet roomRef UserConfig.defaults roomRef.url
          ["value", "child_added"] ⟨"42", .null⟩).ref.active
        = [⟨0, "on", "value", .initializer ["value", "child_added"]⟩]
    ∧ (afterFirstResponse Env.quiet roomRef UserConfig.defaults roomRef.url
          ["child_added"] ⟨"42", .null⟩).state.listeners = []
    ∧ (afterFirstResponse Env.quiet roomRef UserConfig.defaults roomRef.url
          ["child_added"] ⟨"42", .null⟩).ref.active
        = [⟨0, "on", "value", .initializer ["child_added"]⟩]
    ∧ (afterFirstResponse Env.quiet roomRef UserConfig.defaults roomRef.url
          ["child_added"] ⟨"42", .null⟩).ref.calls = [.subscribe "on" "value" 0]
    ∧ (fire Env.quiet
          (listening Env.quiet roomRef UserConfig.defaults roomRef.url ["value", "child_added"])
          roomRef.nextId ⟨"42", .num 5⟩).2
        = some (.typeError "Immutable#replace can only be invoked with objects or arrays")
    ∧ (afterFirstResponse Env.quiet roomRef UserConfig.defaults roomRef.url
          ["value", "child_added"] ⟨"42", .num 5⟩).state.listeners = []
    ∧ (afterFirstResponse Env.quiet roomRef UserConfig.defaults roomRef.url
          ["value", "child_added"] ⟨"42", valueAB12⟩).state.listeners
        = [("value", 0), ("child_added", 1)] := by
  refine ⟨by decide, by decide, by decide, by decide, by decide, by decide, by decide,
    by decide, by decide, by decide, by decide, by decide⟩

end Firebase
